import Mathlib

/-!
Water torture droplet animation (`water_torture.h`)

A shallow embedding of the droplet simulation, its renderer and the pool
scheduler, followed by theorems about them.

Conventions of the embedding
* `uint8_t` and `uint16_t` values are natural numbers, `int16_t` values are
  integers; every conversion the C++ performs is written out (`to_u8`,
  `to_u16`, `to_i16`).
* Arithmetic on promoted operands is done in `Int`, as with a C++ `int` of
  at least 32 bits, and converted back at each store.
* The frame buffer is a list of cells; an access outside the list is
  undefined in C++ and yields `none` here.
* `rand()` is an argument of `animate`.
-/

namespace water_torture

/-! ## Machine integers -/

/-- Conversion of an `int` to `uint8_t`. -/
def to_u8 (x : Int) : Nat := (x % 256).toNat

/-- Conversion of an `int` to `uint16_t`. -/
def to_u16 (x : Int) : Nat := (x % 65536).toNat

/-- Conversion of an `int` to `int16_t`, wrapping modulo 2^16. -/
def to_i16 (x : Int) : Int := (x + 32768) % 65536 - 32768

/-! ## Colours -/

/-- The `ws2811::rgb` value type: three `uint8_t` channels. -/
structure rgb where
  red : Nat
  green : Nat
  blue : Nat
deriving DecidableEq, Repr

/-- Every channel of the colour fits in a `uint8_t`. -/
def rgb.wf (c : rgb) : Prop := c.red ≤ 255 ∧ c.green ≤ 255 ∧ c.blue ≤ 255

instance (c : rgb) : Decidable c.wf := by
  unfold rgb.wf; infer_instance

/-- Source `mult`: `(static_cast<uint16_t>(value) * multiplier) >> 8`, returned as `uint8_t`. -/
def mult (value multiplier : Nat) : Nat := ((value * multiplier) >>> 8) % 256

/-- Source `droplet::add_clipped`: add two numbers and clip the result at 255. -/
def add_clipped (left right : Nat) : Nat :=
  let result := (left + right) % 65536
  let result := if result > 255 then 255 else result
  result % 256

/-- Source `droplet::add_clipped_to`, returning the new value of `left`. -/
def add_clipped_to (left right : rgb) : rgb :=
  { red := add_clipped left.red right.red
    green := add_clipped left.green right.green
    blue := add_clipped left.blue right.blue }

/-- Source `droplet::scale`. -/
def scale (value : rgb) (amplitude : Nat) : rgb :=
  { red := mult value.red amplitude
    green := mult value.green amplitude
    blue := mult value.blue amplitude }

/-- Source `droplet::collision_scaling`. -/
def collision_scaling : Nat := 40

/-! ## The droplet -/

/-- Source `droplet::stateval`. -/
inductive stateval where
  | inactive
  | swelling
  | falling
  | bouncing
deriving DecidableEq, Repr

/-- Source `class droplet`: the data members. -/
structure droplet where
  color : rgb
  position : Nat
  speed : Int
  gravity : Nat
  state : stateval
deriving DecidableEq, Repr

/-- Source `droplet::droplet(const rgb &color, uint16_t gravity)`. -/
def droplet.mk_active (color : rgb) (gravity : Nat) : droplet :=
  { color := color, position := 0, speed := 0, gravity := gravity, state := stateval.swelling }

/-- Source `droplet::droplet()`. -/
def droplet.mk_default : droplet :=
  { color := ⟨0, 0, 0⟩, position := 0, speed := 0, gravity := 0, state := stateval.inactive }

/-- Source `droplet::step(uint8_t maxpos)`: the next step of the animation. -/
def droplet.step (d : droplet) (maxpos : Nat) : droplet :=
  if d.state = stateval.falling ∨ d.state = stateval.bouncing then
    let position := to_u16 ((d.position : Int) + d.speed)
    let speed := to_i16 (d.speed + (d.gravity : Int))
    let maxpos16 := to_u16 ((maxpos : Int) * 256)
    if position > maxpos16 then
      if d.state = stateval.bouncing then
        { d with position := position, speed := speed, state := stateval.inactive }
      else
        { d with
          position := to_u16 ((maxpos16 : Int) - ((position : Int) - (maxpos16 : Int)))
          speed := to_i16 (Int.tdiv (-speed) 4)
          color := scale d.color 10
          state := stateval.bouncing }
    else
      { d with position := position, speed := speed }
  else if d.state = stateval.swelling then
    let position := to_u16 ((d.position : Int) + 1)
    if d.color.blue ≤ 10 ∨ (d.color.blue : Int) - (position : Int) ≤ 10 then
      { d with state := stateval.falling, position := 0 }
    else
      { d with position := position }
  else
    d

/-- Source `droplet::is_active`. -/
def droplet.is_active (d : droplet) : Bool := d.state != stateval.inactive

/-! ## Rendering -/

/-- One statement `add_clipped_to( leds[index], value)` of `draw`. The cell must
exist: an index outside the buffer is an out-of-range access. -/
def add_clipped_at (leds : List rgb) (index : Nat) (value : rgb) : Option (List rgb) :=
  if h : index < leds.length then
    some (leds.set index (add_clipped_to leds[index] value))
  else
    none

/-- The local `position8` of `draw`: `position >> 8` as `uint8_t`. -/
def droplet.position8 (d : droplet) : Nat := to_u8 ((d.position >>> 8 : Nat) : Int)

/-- The local `remainder` of `draw`: the lower bits of `position`. -/
def droplet.remainder (d : droplet) : Nat := to_u8 (d.position : Int)

/-- The local `last` of `draw`. -/
def draw_last (max_pos : Nat) (reverse : Bool) : Nat :=
  if reverse then 0 else max_pos

/-- The local `pos` of `draw`. -/
def droplet.draw_pos (d : droplet) (max_pos : Nat) (reverse : Bool) : Nat :=
  if reverse then to_u8 ((max_pos : Int) - (d.position8 : Int)) else d.position8

/-- The local `pos1` of `draw`. -/
def droplet.draw_pos1 (d : droplet) (max_pos : Nat) (reverse : Bool) : Nat :=
  if reverse then to_u8 ((d.draw_pos max_pos reverse : Int) - 1)
  else to_u8 ((d.draw_pos max_pos reverse : Int) + 1)

/-- The local `first` of `draw`. -/
def draw_first (max_pos : Nat) (reverse : Bool) : Nat :=
  if reverse then max_pos else 0

/-- Source `droplet::draw`: smear the light of the droplet between two leds.
The result is the new content of `leds`, or `none` when a cell outside the
buffer would be accessed. -/
def droplet.draw (d : droplet) (leds : List rgb) (max_pos : Nat) (reverse : Bool) :
    Option (List rgb) :=
  if d.state = stateval.falling ∨ d.state = stateval.bouncing then do
    let leds ← add_clipped_at leds (d.draw_pos max_pos reverse)
      (scale d.color (to_u16 (256 - (d.remainder : Int))))
    let leds ←
      if d.remainder ≠ 0 then
        add_clipped_at leds (d.draw_pos1 max_pos reverse) (scale d.color d.remainder)
      else
        some leds
    if d.state = stateval.bouncing then
      add_clipped_at leds (draw_last max_pos reverse) d.color
    else
      some leds
  else if d.state = stateval.swelling then
    add_clipped_at leds (draw_first max_pos reverse) (scale d.color d.position)
  else
    some leds

/-- Source `droplet::step(rgb *leds, uint8_t ledcount, bool reverse)`: perform
one step and draw. -/
def droplet.step_draw (d : droplet) (leds : List rgb) (ledcount : Nat) (reverse : Bool) :
    Option (droplet × List rgb) :=
  let d := d.step (to_u8 ((ledcount : Int) - 1))
  (d.draw leds (to_u8 ((ledcount : Int) - 1)) reverse).map (fun leds => (d, leds))

/-- The statements `add_clipped_to( leds[index], value)` that `draw` executes,
in order, as pairs of index and value. -/
def droplet.draw_ops (d : droplet) (max_pos : Nat) (reverse : Bool) : List (Nat × rgb) :=
  if d.state = stateval.falling ∨ d.state = stateval.bouncing then
    [(d.draw_pos max_pos reverse, scale d.color (to_u16 (256 - (d.remainder : Int))))]
      ++ (if d.remainder ≠ 0 then
            [(d.draw_pos1 max_pos reverse, scale d.color d.remainder)] else [])
      ++ (if d.state = stateval.bouncing then
            [(draw_last max_pos reverse, d.color)] else [])
  else if d.state = stateval.swelling then
    [(draw_first max_pos reverse, scale d.color d.position)]
  else
    []

/-- Execute a sequence of `add_clipped_to` statements on the buffer. -/
def apply_ops (leds : List rgb) (ops : List (Nat × rgb)) : Option (List rgb) :=
  ops.foldlM (fun l op => add_clipped_at l op.1 op.2) leds

/-- The droplet after `k` calls of `step(maxpos)`. -/
def droplet.steps (d : droplet) (maxpos : Nat) : Nat → droplet
  | 0 => d
  | k + 1 => (d.steps maxpos k).step maxpos

/-! ## The pool -/

/-- Source `droplet_colors`: the colours to cycle through. -/
def droplet_colors : List rgb :=
  [⟨255, 255, 0⟩, ⟨255, 0, 255⟩, ⟨128, 128, 128⟩, ⟨255, 255, 255⟩, ⟨0, 0, 255⟩]

/-- Source `num_droplet_colors`. -/
def num_droplet_colors : Nat := droplet_colors.length

/-- Source `WaterTorture::droplet_count`. -/
def droplet_count : Nat := 4

/-- Source `create_random_droplet`: the new droplet and the new value of the
file-scope `current_color_index`. -/
def create_random_droplet (current_color_index : Nat) : Option (droplet × Nat) := do
  let color ← droplet_colors[current_color_index]?
  some (droplet.mk_active color 5, to_u8 (((current_color_index : Int) + 1) % num_droplet_colors))

/-- Source `class WaterTorture`, together with the pixel buffer of its strip
(`numPixels()` is the length of `leds`) and the file-scope
`current_color_index`. -/
structure WaterTorture where
  leds : List rgb
  droplets : List droplet
  current_droplet : Nat
  droplet_pause : Nat
  current_color_index : Nat
deriving DecidableEq, Repr

/-- Source `WaterTorture::WaterTorture(strip)`, at program start: the array
holds default-constructed droplets and `current_color_index` is 0. -/
def WaterTorture.init (leds : List rgb) : WaterTorture :=
  { leds := leds
    droplets := List.replicate droplet_count droplet.mk_default
    current_droplet := 0
    droplet_pause := 1
    current_color_index := 0 }

/-- The first half of `animate`: the pacing countdown and the spawn. `rand` is
the value that `rand()` returns if it is called. -/
def WaterTorture.spawn (w : WaterTorture) (rand : Nat) : Option WaterTorture :=
  if w.droplet_pause ≠ 0 then
    some { w with droplet_pause := to_u8 ((w.droplet_pause : Int) - 1) }
  else do
    let d ← w.droplets[w.current_droplet]?
    if !d.is_active then
      let (d, color_index) ← create_random_droplet w.current_color_index
      let current_droplet := to_u8 ((w.current_droplet : Int) + 1)
      let current_droplet := if current_droplet ≥ droplet_count then 0 else current_droplet
      some { w with
        droplets := w.droplets.set w.current_droplet d
        current_droplet := current_droplet
        droplet_pause := to_u8 (100 + ((rand % 80 : Nat) : Int))
        current_color_index := color_index }
    else
      some w

/-- The loop of `animate` from index `idx` on, with `count` slots still to visit
(`animate` starts it with `droplet_count` and `idx = 0`):
`droplets[idx].step( leds, numPixels, reverse)` for each slot. -/
def step_all (numPixels : Nat) (reverse : Bool) :
    Nat → Nat → List droplet → List rgb → Option (List droplet × List rgb)
  | 0, _, droplets, leds => some (droplets, leds)
  | count + 1, idx, droplets, leds => do
    let d ← droplets[idx]?
    let (d, leds) ← d.step_draw leds (to_u8 (numPixels : Int)) reverse
    step_all numPixels reverse count (idx + 1) (droplets.set idx d) leds

/-- Source `WaterTorture::animate`. -/
def WaterTorture.animate (w : WaterTorture) (rand : Nat) (reverse : Bool) :
    Option WaterTorture := do
  let w ← w.spawn rand
  let leds := List.replicate w.leds.length (⟨0, 0, 0⟩ : rgb)
  let (droplets, leds) ← step_all w.leds.length reverse droplet_count 0 w.droplets leds
  some { w with droplets := droplets, leds := leds }

/-! ## Auxiliary notions used by the statements -/

/-- Invariant of a droplet spawned by the pool (`gravity` 5) and advanced by
`step` on a strip whose `maxpos16` is `M`. While falling, `k` counts the steps
of free fall: `speed = 5 k` and `position = 5 k (k - 1) / 2`. -/
def pool_inv (M : Nat) (d : droplet) : Prop :=
  d.gravity = 5 ∧ d.color.wf ∧
    (d.state = stateval.swelling →
      d.speed = 0 ∧ (d.position = 0 ∨ d.position + 10 < d.color.blue)) ∧
    (d.state = stateval.falling →
      ∃ k : Nat, d.speed = 5 * (k : Int) ∧ 2 * d.position + 5 * k = 5 * k * k ∧
        d.position ≤ M) ∧
    (d.state = stateval.bouncing → d.position ≤ M)

/-- The total that a sequence of `add_clipped_to` statements adds to channel
`ch` of cell `i`. -/
def ops_sum (ops : List (Nat × rgb)) (i : Nat) (ch : rgb → Nat) : Nat :=
  ((ops.filter (fun op => op.1 = i)).map (fun op => ch op.2)).sum

/-- Every channel of every cell of the buffer fits in a `uint8_t`. -/
def leds_wf (leds : List rgb) : Prop := ∀ c ∈ leds, c.wf

/-- Distance fallen after `k` steps of free fall under gravity 5 from rest:
each step first adds the current speed `5 k` to the position. -/
def fall_position : Nat → Nat
  | 0 => 0
  | k + 1 => fall_position k + 5 * k

/-- Saturating addition of the renderer as the specification words it:
`min(255, existing + contribution)`. -/
def sat_add (existing contribution : Nat) : Nat := min 255 (existing + contribution)

/-- Reference smear of the specification for a falling or bouncing droplet drawn
with `reverse = false`: the new value of channel `ch` of cell `i`, given the cell.
With `index = position >> 8` and `frac = position mod 256` it adds
`floor(c * (256 - frac) / 256)` to cell `index`, `floor(c * frac / 256)` to cell
`index + 1` if `frac` is not 0, and the full colour to cell `max_pos` when
bouncing. -/
def smear_channel (d : droplet) (max_pos i : Nat) (ch : rgb → Nat) (cell : rgb) : Nat :=
  let index := d.position >>> 8
  let frac := d.position % 256
  let v0 := ch cell
  let v1 := if i = index then sat_add v0 (ch d.color * (256 - frac) / 256) else v0
  let v2 := if i = index + 1 ∧ frac ≠ 0 then sat_add v1 (ch d.color * frac / 256) else v1
  if i = max_pos ∧ d.state = stateval.bouncing then sat_add v2 (ch d.color) else v2

/-- Reference smear of the specification: the new value of cell `i`. -/
def smear_cell (d : droplet) (max_pos i : Nat) (cell : rgb) : rgb :=
  { red := smear_channel d max_pos i rgb.red cell
    green := smear_channel d max_pos i rgb.green cell
    blue := smear_channel d max_pos i rgb.blue cell }

/-- Reference swelling render of the specification: the endpoint cell (index 0,
or `max_pos` when reversed) gets `floor(c * position / 256)` added per channel with
saturation at 255; every other cell is unchanged. -/
def swell_cell (d : droplet) (max_pos : Nat) (reverse : Bool) (i : Nat) (cell : rgb) : rgb :=
  if i = (if reverse then max_pos else 0) then
    { red := sat_add cell.red (d.color.red * d.position / 256)
      green := sat_add cell.green (d.color.green * d.position / 256)
      blue := sat_add cell.blue (d.color.blue * d.position / 256) }
  else
    cell

/-- Invariant of the bounce phase on a strip whose `maxpos16` is `M`: the droplet is
on the strip, and the quantity `speed^2 - 5 speed - 10 position`, which a step of
the bounce phase conserves, is small enough that the droplet turns around above
cell 0 and comes back to the ground with a speed of at most 226. -/
def bounce_inv (M : Nat) (d : droplet) : Prop :=
  d.gravity = 5 ∧ d.position ≤ M ∧
    d.speed * d.speed - 5 * d.speed + 7 ≤ 10 * (d.position : Int) ∧
    d.speed * d.speed - 5 * d.speed + 10 * ((M : Int) - (d.position : Int)) ≤ 50000

/-- Invariant of a pool droplet over its whole life: `pool_inv`, the bounce
invariant while bouncing, and a speed between 0 and 231 once inactive. -/
def life_inv (M : Nat) (d : droplet) : Prop :=
  pool_inv M d ∧ (d.state = stateval.bouncing → bounce_inv M d) ∧
    (d.state = stateval.inactive → 0 ≤ d.speed ∧ d.speed ≤ 231)

/-- Number of steps a bouncing droplet can still take at most, as a bound for
induction: while rising the speed climbs to zero, afterwards the position climbs
to `M`. -/
def bounce_measure (M : Nat) (d : droplet) : Nat :=
  if d.speed ≤ 0 then 70000 + (-d.speed).toNat else M + 1 - d.position

/-- The pool after `animate` was called once for every input, in order; an input
is the value returned by `rand()` and the direction flag of that frame. -/
def WaterTorture.run (w : WaterTorture) : List (Nat × Bool) → Option WaterTorture
  | [] => some w
  | input :: rest => (w.animate input.1 input.2).bind (fun w' => w'.run rest)

/-- The colour of the droplet that `animate` creates in this frame, if it creates
one: `create_random_droplet` was called exactly when the spawn step changed the
palette index, and the new droplet then sits in slot `current_droplet`. -/
def WaterTorture.spawned_color (w : WaterTorture) (rand : Nat) : Option rgb :=
  (w.spawn rand).bind (fun w1 =>
    if w1.current_color_index ≠ w.current_color_index then
      (w1.droplets[w.current_droplet]?).map droplet.color
    else
      none)

/-- The colours of the droplets created, in order of creation, while `animate` is
called once for every input. -/
def WaterTorture.spawn_log (w : WaterTorture) : List (Nat × Bool) → Option (List rgb)
  | [] => some []
  | input :: rest =>
    (w.animate input.1 input.2).bind (fun w' =>
      (w'.spawn_log rest).map (fun log => (w.spawned_color input.1).toList ++ log))

/-- The scheduler fields of the pool are in range. -/
def sched_ok (w : WaterTorture) : Prop :=
  w.droplets.length = droplet_count ∧ w.current_droplet < droplet_count ∧
    w.droplet_pause ≤ 179 ∧ w.current_color_index < num_droplet_colors

/-- Invariant of the pool on a strip of `n` cells: the buffer has `n` cells, the
scheduler fields are in range, and every slot holds an inactive droplet or one that
satisfies `pool_inv`. -/
def pool_ok (n : Nat) (w : WaterTorture) : Prop :=
  w.leds.length = n ∧ sched_ok w ∧
    ∀ d ∈ w.droplets, d.state = stateval.inactive ∨ pool_inv ((n - 1) * 256) d

/-! ## Theorems -/

open stateval

/-! ### The state machine (C1) -/

theorem step_of_inactive (d : droplet) (maxpos : Nat) (h : d.state = inactive) :
    d.step maxpos = d := by
  simp [droplet.step, h]

theorem create_random_droplet_spec (i j : Nat) (d : droplet)
    (h : create_random_droplet i = some (d, j)) :
    d.state = swelling ∧ d.position = 0 ∧ d.speed = 0 ∧ d.gravity = 5 ∧
      droplet_colors[i]? = some d.color ∧ j = (i + 1) % 5 := by
  unfold create_random_droplet at h
  cases hcol : droplet_colors[i]? with
  | none => simp [hcol] at h
  | some c =>
    simp only [hcol, Option.bind_eq_bind, Option.some_bind, Option.some.injEq,
      Prod.mk.injEq] at h
    obtain ⟨h1, h2⟩ := h
    subst h1
    refine ⟨rfl, rfl, rfl, rfl, rfl, ?_⟩
    rw [← h2]
    simp only [to_u8, num_droplet_colors, droplet_colors, List.length_cons, List.length_nil]
    omega

theorem spawn_slot (w w' : WaterTorture) (rand i : Nat) (d d' : droplet)
    (hs : w.spawn rand = some w') (hd : w.droplets[i]? = some d)
    (hd' : w'.droplets[i]? = some d') :
    d' = d ∨ (d.state = inactive ∧ d'.state = swelling) := by
  unfold WaterTorture.spawn at hs
  split_ifs at hs with hp
  · simp only [Option.some.injEq] at hs
    subst hs
    left
    simp only at hd'
    rw [hd] at hd'
    exact (Option.some.inj hd').symm
  · cases hcur : w.droplets[w.current_droplet]? with
    | none => simp [hcur] at hs
    | some dc =>
      simp only [hcur, Option.bind_eq_bind, Option.some_bind] at hs
      by_cases hact : (!dc.is_active) = true
      · rw [if_pos hact] at hs
        cases hc : create_random_droplet w.current_color_index with
        | none => simp [hc] at hs
        | some p =>
          obtain ⟨dn, ci⟩ := p
          simp only [hc, Option.some_bind, Option.some.injEq] at hs
          subst hs
          simp only at hd'
          by_cases hi : w.current_droplet = i
          · subst hi
            right
            rw [hcur] at hd
            cases hd
            constructor
            · simpa [droplet.is_active] using hact
            · have hlt : w.current_droplet < w.droplets.length := by
                by_contra hge
                rw [List.getElem?_eq_none (not_lt.mp hge)] at hcur
                cases hcur
              rw [List.getElem?_set_self hlt] at hd'
              cases hd'
              exact (create_random_droplet_spec _ _ _ hc).1
          · left
            rw [List.getElem?_set_ne hi, hd] at hd'
            exact (Option.some.inj hd').symm
      · rw [if_neg hact] at hs
        simp only [Option.some.injEq] at hs
        subst hs
        left
        rw [hd] at hd'
        exact (Option.some.inj hd').symm

theorem step_state_cases (d : droplet) (maxpos : Nat) :
    (d.step maxpos).state = d.state ∨
      (d.state = swelling ∧ (d.step maxpos).state = falling) ∨
      (d.state = falling ∧ (d.step maxpos).state = bouncing) ∨
      (d.state = bouncing ∧ (d.step maxpos).state = inactive) := by
  unfold droplet.step
  cases hst : d.state <;> simp <;> (try split_ifs) <;> simp [hst]

/-- C1: one call of `step` leaves the state unchanged or performs exactly one
of swelling to falling, falling to bouncing, bouncing to inactive; an inactive
droplet is left as it is by `step`; the constructor used for spawning yields a
swelling droplet, and the spawn of `animate` changes a slot only by replacing an
inactive droplet with a swelling one. -/
theorem lifecycle_order (d : droplet) (maxpos : Nat) :
    ((d.step maxpos).state = d.state ∨
      (d.state = swelling ∧ (d.step maxpos).state = falling) ∨
      (d.state = falling ∧ (d.step maxpos).state = bouncing) ∨
      (d.state = bouncing ∧ (d.step maxpos).state = inactive)) ∧
    (d.state = inactive → d.step maxpos = d) ∧
    (∀ (color : rgb) (gravity : Nat), (droplet.mk_active color gravity).state = swelling) ∧
    (∀ (w w' : WaterTorture) (rand i : Nat) (d0 d1 : droplet),
      w.spawn rand = some w' → w.droplets[i]? = some d0 → w'.droplets[i]? = some d1 →
      d1 = d0 ∨ (d0.state = inactive ∧ d1.state = swelling)) :=
  ⟨step_state_cases d maxpos, step_of_inactive d maxpos, fun _ _ => rfl,
    fun w w' rand i d0 d1 hs h0 h1 => spawn_slot w w' rand i d0 d1 hs h0 h1⟩

theorem lifecycle_order_witness :
    ((droplet.mk ⟨255, 255, 0⟩ 225 50 5 falling).step 1).state =
        (droplet.mk ⟨255, 255, 0⟩ 225 50 5 falling).state ∨
      ((droplet.mk ⟨255, 255, 0⟩ 225 50 5 falling).state = swelling ∧
        ((droplet.mk ⟨255, 255, 0⟩ 225 50 5 falling).step 1).state = falling) ∨
      ((droplet.mk ⟨255, 255, 0⟩ 225 50 5 falling).state = falling ∧
        ((droplet.mk ⟨255, 255, 0⟩ 225 50 5 falling).step 1).state = bouncing) ∨
      ((droplet.mk ⟨255, 255, 0⟩ 225 50 5 falling).state = bouncing ∧
        ((droplet.mk ⟨255, 255, 0⟩ 225 50 5 falling).step 1).state = inactive) :=
  (lifecycle_order (droplet.mk ⟨255, 255, 0⟩ 225 50 5 falling) 1).1

/-! ### The invariant of pool droplets -/

theorem fall_count_le (k p M : Nat) (h : 2 * p + 5 * k = 5 * k * k) (hp : p ≤ M)
    (hM : M ≤ 65024) : k ≤ 161 := by
  by_contra hk
  have hk' : 162 ≤ k := by omega
  have : 162 * k ≤ k * k := Nat.mul_le_mul_right k hk'
  nlinarith

theorem fall_speed_le (k p M : Nat) (h : 2 * p + 5 * k = 5 * k * k) (hp : p ≤ M)
    (hM : 256 ≤ M) : 5 * k ≤ M := by
  by_cases hk : k ≤ 51
  · omega
  · have hk' : 52 ≤ k := by omega
    have : 52 * k ≤ k * k := Nat.mul_le_mul_right k hk'
    nlinarith

theorem pool_inv_mk_active (M : Nat) (c : rgb) (hc : c.wf) :
    pool_inv M (droplet.mk_active c 5) := by
  refine ⟨rfl, hc, ?_, ?_, ?_⟩ <;> simp [droplet.mk_active]

theorem pool_inv_step (maxpos : Nat) (h1 : 1 ≤ maxpos) (h2 : maxpos ≤ 254) (d : droplet)
    (hd : pool_inv (maxpos * 256) d) : pool_inv (maxpos * 256) (d.step maxpos) := by
  obtain ⟨hg, hwf, hsw, hfa, hbo⟩ := hd
  have hM : to_u16 ((maxpos : Int) * 256) = maxpos * 256 := by
    simp only [to_u16]; omega
  cases hst : d.state with
  | inactive =>
    rw [step_of_inactive d maxpos hst]
    exact ⟨hg, hwf, hsw, hfa, hbo⟩
  | swelling =>
    obtain ⟨hsp, hpos⟩ := hsw hst
    obtain ⟨hr, hgr, hb⟩ := hwf
    unfold droplet.step
    simp only [hst, false_or, reduceCtorEq, if_false, if_true]
    have hp1 : to_u16 ((d.position : Int) + 1) = d.position + 1 := by
      simp only [to_u16]; omega
    rw [hp1]
    split_ifs with hc
    · refine ⟨hg, ⟨hr, hgr, hb⟩, ?_, ?_, ?_⟩ <;> simp
      exact ⟨0, by simp [hsp], by simp⟩
    · refine ⟨hg, ⟨hr, hgr, hb⟩, ?_, ?_, ?_⟩ <;> simp [hst]
      refine ⟨hsp, ?_⟩
      push_neg at hc
      omega
  | falling =>
    obtain ⟨k, hsp, hk, hpos⟩ := hfa hst
    have hk161 := fall_count_le k d.position _ hk hpos (by omega)
    have hvM := fall_speed_le k d.position _ hk hpos (by omega)
    have hnw : d.position + 5 * k < 65536 := by
      have h161 : k * k ≤ 161 * k := Nat.mul_le_mul_right k hk161
      have hkk : 5 * k * k = 5 * (k * k) := Nat.mul_assoc 5 k k
      omega
    unfold droplet.step
    simp only [hst, true_or, reduceCtorEq, if_false, if_true, hM]
    have hp1 : to_u16 ((d.position : Int) + d.speed) = d.position + 5 * k := by
      simp only [to_u16, hsp]; omega
    have hs1 : to_i16 (d.speed + (d.gravity : Int)) = 5 * ((k + 1 : Nat) : Int) := by
      simp only [to_i16, hsp, hg]; push_cast; omega
    rw [hp1, hs1]
    split_ifs with hc
    · refine ⟨hg, ?_, ?_, ?_, ?_⟩ <;> simp
      · simp only [rgb.wf, scale, mult]; omega
      · simp only [to_u16]; omega
    · refine ⟨hg, hwf, ?_, ?_, ?_⟩ <;> simp [hst]
      refine ⟨k + 1, by push_cast; ring, ?_, by omega⟩
      nlinarith
  | bouncing =>
    unfold droplet.step
    simp only [hst, or_true, reduceCtorEq, if_false, if_true, hM]
    split_ifs with hc
    · refine ⟨hg, hwf, ?_, ?_, ?_⟩ <;> simp
    · refine ⟨hg, hwf, ?_, ?_, ?_⟩ <;> simp [hst]
      omega

theorem pool_inv_steps (maxpos : Nat) (h1 : 1 ≤ maxpos) (h2 : maxpos ≤ 254) (c : rgb)
    (hc : c.wf) (k : Nat) :
    pool_inv (maxpos * 256) ((droplet.mk_active c 5).steps maxpos k) := by
  induction k with
  | zero => exact pool_inv_mk_active _ c hc
  | succ k ih => exact pool_inv_step maxpos h1 h2 _ ih

theorem droplet_colors_wf (c : rgb) (hc : c ∈ droplet_colors) : c.wf := by
  simp only [droplet_colors, List.mem_cons, List.mem_singleton, List.mem_nil_iff, or_false] at hc
  rcases hc with h | h | h | h | h <;> subst h <;> decide

/-! ### The statements executed by `draw` -/

theorem add_clipped_at_length (leds l : List rgb) (i : Nat) (v : rgb)
    (h : add_clipped_at leds i v = some l) : l.length = leds.length := by
  unfold add_clipped_at at h
  split_ifs at h
  cases h
  simp

theorem add_clipped_at_of_lt (leds : List rgb) (i : Nat) (v : rgb) (h : i < leds.length) :
    add_clipped_at leds i v = some (leds.set i (add_clipped_to leds[i] v)) := by
  simp [add_clipped_at, h]

theorem add_clipped_at_of_ge (leds : List rgb) (i : Nat) (v : rgb) (h : leds.length ≤ i) :
    add_clipped_at leds i v = none := by
  simp [add_clipped_at, not_lt.mpr h]

theorem apply_ops_nil (leds : List rgb) : apply_ops leds [] = some leds := rfl

theorem apply_ops_cons (leds : List rgb) (op : Nat × rgb) (ops : List (Nat × rgb)) :
    apply_ops leds (op :: ops) = (add_clipped_at leds op.1 op.2).bind (fun l => apply_ops l ops) := by
  simp [apply_ops, List.foldlM_cons]

theorem apply_ops_append (leds : List rgb) (ops1 ops2 : List (Nat × rgb)) :
    apply_ops leds (ops1 ++ ops2) = (apply_ops leds ops1).bind (fun l => apply_ops l ops2) := by
  simp [apply_ops, List.foldlM_append]

theorem draw_eq_apply_ops (d : droplet) (leds : List rgb) (max_pos : Nat) (reverse : Bool) :
    d.draw leds max_pos reverse = apply_ops leds (d.draw_ops max_pos reverse) := by
  unfold droplet.draw droplet.draw_ops
  split_ifs <;>
    simp [apply_ops_cons, apply_ops_nil, apply_ops_append, Option.bind_eq_bind]

theorem apply_ops_some (ops : List (Nat × rgb)) (leds : List rgb)
    (h : ∀ op ∈ ops, op.1 < leds.length) :
    ∃ l, apply_ops leds ops = some l ∧ l.length = leds.length := by
  induction ops generalizing leds with
  | nil => exact ⟨leds, rfl, rfl⟩
  | cons op ops ih =>
    have h0 : op.1 < leds.length := h op (List.mem_cons_self _ _)
    rw [apply_ops_cons, add_clipped_at_of_lt leds op.1 op.2 h0]
    obtain ⟨l, hl, hlen⟩ := ih (leds.set op.1 (add_clipped_to leds[op.1] op.2))
      (fun o ho => by simpa using h o (List.mem_cons_of_mem _ ho))
    exact ⟨l, by simpa using hl, by simpa using hlen⟩

theorem position8_eq (d : droplet) (h : d.position < 65536) :
    d.position8 = d.position / 256 := by
  simp only [droplet.position8, to_u8, Nat.shiftRight_eq_div_pow]
  omega

theorem remainder_eq (d : droplet) : d.remainder = d.position % 256 := by
  simp only [droplet.remainder, to_u8]
  omega

theorem draw_ops_index_lt (d : droplet) (max_pos : Nat) (reverse : Bool)
    (hm : max_pos ≤ 255)
    (hpos : d.state = falling ∨ d.state = bouncing → d.position ≤ max_pos * 256) :
    (d.state = falling ∨ d.state = bouncing →
      d.draw_pos max_pos reverse < max_pos + 1 ∧
      (d.remainder ≠ 0 → d.draw_pos1 max_pos reverse < max_pos + 1)) ∧
    draw_last max_pos reverse < max_pos + 1 ∧
    draw_first max_pos reverse < max_pos + 1 ∧
    ∀ op ∈ d.draw_ops max_pos reverse, op.1 < max_pos + 1 := by
  have hlast : draw_last max_pos reverse < max_pos + 1 := by
    unfold draw_last; split_ifs <;> omega
  have hfirst : draw_first max_pos reverse < max_pos + 1 := by
    unfold draw_first; split_ifs <;> omega
  have hfb : d.state = falling ∨ d.state = bouncing →
      d.draw_pos max_pos reverse < max_pos + 1 ∧
      (d.remainder ≠ 0 → d.draw_pos1 max_pos reverse < max_pos + 1) := by
    intro hs
    have hp := hpos hs
    have h8 := position8_eq d (by omega)
    have hr := remainder_eq d
    unfold droplet.draw_pos1 droplet.draw_pos
    rw [h8, hr]
    cases reverse <;> simp only [to_u8, Bool.false_eq_true, if_false, if_true] <;>
      constructor <;> omega
  refine ⟨hfb, hlast, hfirst, ?_⟩
  intro op hop
  unfold droplet.draw_ops at hop
  split_ifs at hop with h1 h2 h3 h4 h5 <;>
    simp only [List.mem_append, List.mem_singleton, List.mem_cons, List.mem_nil_iff,
      List.append_nil, or_false, false_or] at hop
  all_goals first
    | (rcases hop with (h | h) | h <;> subst h)
    | (rcases hop with h | h <;> subst h)
    | subst hop
  all_goals first
    | exact (hfb h1).1
    | exact (hfb h1).2 h2
    | exact hlast
    | exact hfirst

/-! ### Indices and positions stay on the strip (C2, C3) -/

/-- C2: on a strip of `n` cells, `2 ≤ n ≤ 255`, for a droplet spawned by the
pool with a palette colour and advanced by any number of `step(n-1)` calls,
every index that `draw(leds, n-1, reverse)` uses is below `n`: `pos`, `pos1` when
`remainder` is nonzero, `last` when bouncing, `first` when swelling; hence `draw`
performs no out-of-range access on a buffer of `n` cells. -/
theorem draw_indices_in_range (n : Nat) (hn2 : 2 ≤ n) (hn : n ≤ 255) (reverse : Bool)
    (c : rgb) (hc : c ∈ droplet_colors) (k : Nat) (d : droplet)
    (hd : d = (droplet.mk_active c 5).steps (n - 1) k) :
    (d.state = falling ∨ d.state = bouncing →
      d.draw_pos (n - 1) reverse < n ∧
      (d.remainder ≠ 0 → d.draw_pos1 (n - 1) reverse < n)) ∧
    (d.state = bouncing → draw_last (n - 1) reverse < n) ∧
    (d.state = swelling → draw_first (n - 1) reverse < n) ∧
    (∀ op ∈ d.draw_ops (n - 1) reverse, op.1 < n) ∧
    (∀ leds : List rgb, leds.length = n →
      ∃ leds', d.draw leds (n - 1) reverse = some leds' ∧ leds'.length = n) := by
  have hinv := pool_inv_steps (n - 1) (by omega) (by omega) c (droplet_colors_wf c hc) k
  rw [← hd] at hinv
  obtain ⟨-, -, -, hfa, hbo⟩ := hinv
  have hpos : d.state = falling ∨ d.state = bouncing → d.position ≤ (n - 1) * 256 := by
    rintro (h | h)
    · obtain ⟨_, -, -, hp⟩ := hfa h
      exact hp
    · exact hbo h
  have hidx := draw_ops_index_lt d (n - 1) reverse (by omega) hpos
  have hn1 : n - 1 + 1 = n := by omega
  rw [hn1] at hidx
  obtain ⟨h1, h2, h3, h4⟩ := hidx
  refine ⟨h1, fun _ => h2, fun _ => h3, h4, ?_⟩
  intro leds hlen
  rw [draw_eq_apply_ops]
  obtain ⟨l, hl, hlen'⟩ := apply_ops_some (d.draw_ops (n - 1) reverse) leds
    (fun op hop => by rw [hlen]; exact h4 op hop)
  exact ⟨l, hl, by rw [hlen', hlen]⟩

/-- C3, as amended: on a strip of `ledcount` cells, `2 ≤ ledcount ≤ 255`, for a
droplet spawned by the pool and advanced by any number of `step(ledcount-1)`
calls, a falling or bouncing droplet has `position ≤ (ledcount-1) << 8`. -/
theorem position_within_strip (ledcount : Nat) (h2 : 2 ≤ ledcount) (h255 : ledcount ≤ 255)
    (c : rgb) (hc : c ∈ droplet_colors) (k : Nat) (d : droplet)
    (hd : d = (droplet.mk_active c 5).steps (ledcount - 1) k)
    (hs : d.state = falling ∨ d.state = bouncing) :
    d.position ≤ (ledcount - 1) <<< 8 := by
  have hinv := pool_inv_steps (ledcount - 1) (by omega) (by omega) c
    (droplet_colors_wf c hc) k
  rw [← hd] at hinv
  obtain ⟨-, -, -, hfa, hbo⟩ := hinv
  rw [Nat.shiftLeft_eq]
  rcases hs with h | h
  · obtain ⟨_, -, -, hp⟩ := hfa h
    exact hp
  · exact hbo h

theorem position_within_strip_witness :
    ((droplet.mk_active ⟨255, 255, 0⟩ 5).steps (2 - 1) 12).state = bouncing ∧
    ((droplet.mk_active ⟨255, 255, 0⟩ 5).steps (2 - 1) 12).position ≤ (2 - 1) <<< 8 :=
  ⟨by decide, position_within_strip 2 (by decide) (by decide) ⟨255, 255, 0⟩ (by decide) 12 _
    rfl (Or.inr (by decide))⟩

/-- C3 fails on a strip of one cell: the third step of a yellow pool droplet
reflects the position 5 about `maxpos16 = 0` and leaves the bouncing droplet at
position 65531. -/
theorem position_escapes_one_led :
    ((droplet.mk_active ⟨255, 255, 0⟩ 5).steps (1 - 1) 3).state = bouncing ∧
    ((droplet.mk_active ⟨255, 255, 0⟩ 5).steps (1 - 1) 3).position = 65531 ∧
    ¬ ((droplet.mk_active ⟨255, 255, 0⟩ 5).steps (1 - 1) 3).position ≤ (1 - 1) <<< 8 := by
  decide

theorem draw_indices_in_range_witness :
    (((droplet.mk_active ⟨255, 255, 0⟩ 5).steps (3 - 1) 16).state = bouncing) ∧
    (∀ op ∈ ((droplet.mk_active ⟨255, 255, 0⟩ 5).steps (3 - 1) 16).draw_ops (3 - 1) true,
      op.1 < 3) :=
  ⟨by decide, (draw_indices_in_range 3 (by decide) (by decide) true ⟨255, 255, 0⟩
    (by decide) 16 _ rfl).2.2.2.1⟩

/-! ### Additive compositing (C4) -/

theorem add_clipped_eq_min (l r : Nat) (hl : l ≤ 255) (hr : r ≤ 255) :
    add_clipped l r = min 255 (l + r) := by
  unfold add_clipped
  simp only
  split_ifs <;> omega

theorem add_clipped_le (l r : Nat) : add_clipped l r ≤ 255 := by
  unfold add_clipped
  simp only
  split_ifs <;> omega

theorem add_clipped_to_wf (a b : rgb) : (add_clipped_to a b).wf :=
  ⟨add_clipped_le _ _, add_clipped_le _ _, add_clipped_le _ _⟩

theorem scale_wf (c : rgb) (a : Nat) : (scale c a).wf := by
  simp only [rgb.wf, scale, mult]
  omega

theorem draw_ops_wf (d : droplet) (max_pos : Nat) (reverse : Bool) (hc : d.color.wf) :
    ∀ op ∈ d.draw_ops max_pos reverse, op.2.wf := by
  intro op hop
  unfold droplet.draw_ops at hop
  split_ifs at hop <;>
    simp only [List.mem_append, List.mem_singleton, List.mem_cons, List.mem_nil_iff,
      List.append_nil, or_false, false_or] at hop
  all_goals first
    | (rcases hop with (h | h) | h <;> subst h)
    | (rcases hop with h | h <;> subst h)
    | subst hop
  all_goals first
    | exact scale_wf _ _
    | exact hc

theorem leds_wf_set (leds : List rgb) (i : Nat) (c : rgb) (h : leds_wf leds) (hc : c.wf) :
    leds_wf (leds.set i c) := by
  intro x hx
  rcases List.mem_or_eq_of_mem_set hx with h1 | h1
  · exact h x h1
  · rw [h1]; exact hc

theorem ops_sum_nil (i : Nat) (ch : rgb → Nat) : ops_sum [] i ch = 0 := rfl

theorem ops_sum_cons (op : Nat × rgb) (ops : List (Nat × rgb)) (i : Nat) (ch : rgb → Nat) :
    ops_sum (op :: ops) i ch = (if op.1 = i then ch op.2 else 0) + ops_sum ops i ch := by
  unfold ops_sum
  by_cases h : op.1 = i <;> simp [List.filter_cons, h]

theorem ops_sum_append (ops1 ops2 : List (Nat × rgb)) (i : Nat) (ch : rgb → Nat) :
    ops_sum (ops1 ++ ops2) i ch = ops_sum ops1 i ch + ops_sum ops2 i ch := by
  simp [ops_sum]

theorem apply_ops_none (ops : List (Nat × rgb)) (leds : List rgb)
    (h : ∃ op ∈ ops, leds.length ≤ op.1) : apply_ops leds ops = none := by
  induction ops generalizing leds with
  | nil => obtain ⟨_, hop, _⟩ := h; cases hop
  | cons op ops ih =>
    rw [apply_ops_cons]
    by_cases h0 : op.1 < leds.length
    · rw [add_clipped_at_of_lt leds op.1 op.2 h0]
      simp only [Option.some_bind]
      apply ih
      obtain ⟨o, ho, hlen⟩ := h
      rcases List.mem_cons.mp ho with h1 | h1
      · subst h1; omega
      · exact ⟨o, h1, by simpa using hlen⟩
    · rw [add_clipped_at_of_ge leds op.1 op.2 (not_lt.mp h0)]
      rfl

theorem apply_ops_channel (ch : rgb → Nat)
    (hch : ∀ a b : rgb, ch (add_clipped_to a b) = add_clipped (ch a) (ch b))
    (hwf : ∀ a : rgb, a.wf → ch a ≤ 255)
    (ops : List (Nat × rgb)) (leds l : List rgb)
    (hl : leds_wf leds) (hops : ∀ op ∈ ops, op.2.wf) (h : apply_ops leds ops = some l) :
    ∀ (i : Nat) (c0 : rgb), leds[i]? = some c0 →
      ∃ c, l[i]? = some c ∧ ch c = min 255 (ch c0 + ops_sum ops i ch) := by
  induction ops generalizing leds with
  | nil =>
    intro i c0 h0
    rw [apply_ops_nil] at h
    cases h
    exact ⟨c0, h0, by
      have := hwf c0 (hl c0 (List.getElem?_mem h0))
      rw [ops_sum_nil]; omega⟩
  | cons op ops ih =>
    intro i c0 h0
    rw [apply_ops_cons] at h
    by_cases hlt : op.1 < leds.length
    · rw [add_clipped_at_of_lt leds op.1 op.2 hlt] at h
      simp only [Option.some_bind] at h
      have hopwf : op.2.wf := hops op (List.mem_cons_self _ _)
      have hl1 : leds_wf (leds.set op.1 (add_clipped_to leds[op.1] op.2)) :=
        leds_wf_set _ _ _ hl (add_clipped_to_wf _ _)
      have hc0 := hwf c0 (hl c0 (List.getElem?_mem h0))
      have hv := hwf op.2 hopwf
      rw [ops_sum_cons]
      by_cases hi : op.1 = i
      · have hget : (leds.set op.1 (add_clipped_to leds[op.1] op.2))[i]? =
            some (add_clipped_to c0 op.2) := by
          subst hi
          rw [List.getElem?_set_self hlt]
          rw [List.getElem?_eq_getElem hlt] at h0
          cases h0
          rfl
        obtain ⟨c, hc, hsum⟩ := ih _ hl1 (fun o ho => hops o (List.mem_cons_of_mem _ ho)) h i _ hget
        refine ⟨c, hc, ?_⟩
        rw [hsum, hch, add_clipped_eq_min _ _ hc0 hv, if_pos hi]
        omega
      · have hget : (leds.set op.1 (add_clipped_to leds[op.1] op.2))[i]? = some c0 := by
          rw [List.getElem?_set_ne hi]; exact h0
        obtain ⟨c, hc, hsum⟩ := ih _ hl1 (fun o ho => hops o (List.mem_cons_of_mem _ ho)) h i _ hget
        refine ⟨c, hc, ?_⟩
        rw [hsum, if_neg hi]
        omega
    · rw [add_clipped_at_of_ge leds op.1 op.2 (not_lt.mp hlt)] at h
      cases h

theorem apply_ops_length (ops : List (Nat × rgb)) (leds l : List rgb)
    (h : apply_ops leds ops = some l) : l.length = leds.length := by
  by_cases hall : ∀ op ∈ ops, op.1 < leds.length
  · obtain ⟨l', hl', hlen⟩ := apply_ops_some ops leds hall
    rw [h] at hl'
    cases hl'
    exact hlen
  · push_neg at hall
    rw [apply_ops_none ops leds hall] at h
    cases h

theorem apply_ops_comm (ops1 ops2 : List (Nat × rgb)) (leds : List rgb) (hl : leds_wf leds)
    (h1 : ∀ op ∈ ops1, op.2.wf) (h2 : ∀ op ∈ ops2, op.2.wf) :
    apply_ops leds (ops1 ++ ops2) = apply_ops leds (ops2 ++ ops1) := by
  have hw12 : ∀ op ∈ ops1 ++ ops2, op.2.wf := fun op hop =>
    (List.mem_append.mp hop).elim (h1 op) (h2 op)
  have hw21 : ∀ op ∈ ops2 ++ ops1, op.2.wf := fun op hop =>
    (List.mem_append.mp hop).elim (h2 op) (h1 op)
  by_cases hall : ∀ op ∈ ops1 ++ ops2, op.1 < leds.length
  · have hall' : ∀ op ∈ ops2 ++ ops1, op.1 < leds.length := fun op hop =>
      hall op (List.mem_append.mpr (List.mem_append.mp hop).symm)
    obtain ⟨l, hl1, hlen⟩ := apply_ops_some _ leds hall
    obtain ⟨l', hl2, hlen'⟩ := apply_ops_some _ leds hall'
    rw [hl1, hl2]
    congr 1
    apply List.ext_getElem?
    intro i
    by_cases hi : i < leds.length
    · have h0 : leds[i]? = some leds[i] := List.getElem?_eq_getElem hi
      obtain ⟨c, hc, hr⟩ := apply_ops_channel rgb.red (fun _ _ => rfl) (fun _ h => h.1)
        _ leds l hl hw12 hl1 i _ h0
      obtain ⟨c', hc', hr'⟩ := apply_ops_channel rgb.red (fun _ _ => rfl) (fun _ h => h.1)
        _ leds l' hl hw21 hl2 i _ h0
      obtain ⟨cg, hcg, hg⟩ := apply_ops_channel rgb.green (fun _ _ => rfl)
        (fun _ h => h.2.1) _ leds l hl hw12 hl1 i _ h0
      obtain ⟨cg', hcg', hg'⟩ := apply_ops_channel rgb.green (fun _ _ => rfl)
        (fun _ h => h.2.1) _ leds l' hl hw21 hl2 i _ h0
      obtain ⟨cb, hcb, hb⟩ := apply_ops_channel rgb.blue (fun _ _ => rfl)
        (fun _ h => h.2.2) _ leds l hl hw12 hl1 i _ h0
      obtain ⟨cb', hcb', hb'⟩ := apply_ops_channel rgb.blue (fun _ _ => rfl)
        (fun _ h => h.2.2) _ leds l' hl hw21 hl2 i _ h0
      rw [hc] at hcg hcb
      rw [hc'] at hcg' hcb'
      cases hcg; cases hcb; cases hcg'; cases hcb'
      rw [hc, hc']
      congr 1
      rw [ops_sum_append] at hr hg hb hr' hg' hb'
      cases c; cases c'
      simp only at hr hg hb hr' hg' hb'
      simp only [rgb.mk.injEq]
      omega
    · rw [List.getElem?_eq_none (by omega), List.getElem?_eq_none (by omega)]
  · push_neg at hall
    have hall' : ∃ op ∈ ops2 ++ ops1, leds.length ≤ op.1 := by
      obtain ⟨op, hop, hlen⟩ := hall
      exact ⟨op, List.mem_append.mpr (List.mem_append.mp hop).symm, hlen⟩
    rw [apply_ops_none _ leds hall, apply_ops_none _ leds hall']

/-- C4: `add_clipped(l, r) = min(255, l + r)` for 8-bit `l`, `r`; drawing droplet
`A` and then `B` into a buffer gives the same result as drawing `B` and then `A`;
and after both draws every channel of every cell is `min(255, existing + total
of the values the two draws add to that cell)`. -/
theorem compositing_saturating_commutative :
    (∀ l r : Nat, l ≤ 255 → r ≤ 255 → add_clipped l r = min 255 (l + r)) ∧
    (∀ (A B : droplet) (leds : List rgb) (max_pos : Nat) (reverse : Bool),
      leds_wf leds → A.color.wf → B.color.wf →
      (A.draw leds max_pos reverse).bind (fun l => B.draw l max_pos reverse) =
        (B.draw leds max_pos reverse).bind (fun l => A.draw l max_pos reverse)) ∧
    (∀ (A B : droplet) (leds l1 l2 : List rgb) (max_pos : Nat) (reverse : Bool),
      leds_wf leds → A.color.wf → B.color.wf →
      A.draw leds max_pos reverse = some l1 → B.draw l1 max_pos reverse = some l2 →
      l2.length = leds.length ∧
      ∀ (i : Nat) (c0 : rgb), leds[i]? = some c0 →
        ∃ c, l2[i]? = some c ∧
          c.red = min 255 (c0.red +
            ops_sum (A.draw_ops max_pos reverse ++ B.draw_ops max_pos reverse) i rgb.red) ∧
          c.green = min 255 (c0.green +
            ops_sum (A.draw_ops max_pos reverse ++ B.draw_ops max_pos reverse) i rgb.green) ∧
          c.blue = min 255 (c0.blue +
            ops_sum (A.draw_ops max_pos reverse ++ B.draw_ops max_pos reverse) i rgb.blue)) := by
  refine ⟨add_clipped_eq_min, ?_, ?_⟩
  · intro A B leds max_pos reverse hl hA hB
    have h := apply_ops_comm (A.draw_ops max_pos reverse) (B.draw_ops max_pos reverse) leds hl
      (draw_ops_wf A max_pos reverse hA) (draw_ops_wf B max_pos reverse hB)
    rw [apply_ops_append, apply_ops_append] at h
    simpa only [draw_eq_apply_ops] using h
  · intro A B leds l1 l2 max_pos reverse hl hA hB h1 h2
    have h : apply_ops leds (A.draw_ops max_pos reverse ++ B.draw_ops max_pos reverse) =
        some l2 := by
      rw [apply_ops_append, ← draw_eq_apply_ops, h1, Option.some_bind, ← draw_eq_apply_ops, h2]
    have hw : ∀ op ∈ A.draw_ops max_pos reverse ++ B.draw_ops max_pos reverse, op.2.wf :=
      fun op hop => (List.mem_append.mp hop).elim (draw_ops_wf A max_pos reverse hA op)
        (draw_ops_wf B max_pos reverse hB op)
    refine ⟨apply_ops_length _ leds l2 h, ?_⟩
    intro i c0 h0
    obtain ⟨c, hc, hr⟩ := apply_ops_channel rgb.red (fun _ _ => rfl) (fun _ h => h.1)
      _ leds l2 hl hw h i _ h0
    obtain ⟨cg, hcg, hg⟩ := apply_ops_channel rgb.green (fun _ _ => rfl) (fun _ h => h.2.1)
      _ leds l2 hl hw h i _ h0
    obtain ⟨cb, hcb, hb⟩ := apply_ops_channel rgb.blue (fun _ _ => rfl) (fun _ h => h.2.2)
      _ leds l2 hl hw h i _ h0
    rw [hc] at hcg hcb
    cases hcg; cases hcb
    exact ⟨c, hc, hr, hg, hb⟩

theorem compositing_saturating_commutative_witness :
    (leds_wf [⟨0, 0, 0⟩, ⟨200, 100, 3⟩, ⟨250, 5, 6⟩] ∧
      (droplet.mk ⟨255, 255, 0⟩ 300 10 5 bouncing).color.wf ∧
      (droplet.mk ⟨0, 0, 255⟩ 100 0 5 swelling).color.wf) ∧
    ((droplet.mk ⟨255, 255, 0⟩ 300 10 5 bouncing).draw
        [⟨0, 0, 0⟩, ⟨200, 100, 3⟩, ⟨250, 5, 6⟩] 2 false).bind
        (fun l => (droplet.mk ⟨0, 0, 255⟩ 100 0 5 swelling).draw l 2 false) =
      ((droplet.mk ⟨0, 0, 255⟩ 100 0 5 swelling).draw
        [⟨0, 0, 0⟩, ⟨200, 100, 3⟩, ⟨250, 5, 6⟩] 2 false).bind
        (fun l => (droplet.mk ⟨255, 255, 0⟩ 300 10 5 bouncing).draw l 2 false) :=
  ⟨⟨by unfold leds_wf; decide, by decide, by decide⟩,
    compositing_saturating_commutative.2.1 (droplet.mk ⟨255, 255, 0⟩ 300 10 5 bouncing)
      (droplet.mk ⟨0, 0, 255⟩ 100 0 5 swelling) [⟨0, 0, 0⟩, ⟨200, 100, 3⟩, ⟨250, 5, 6⟩] 2 false
      (by unfold leds_wf; decide) (by decide) (by decide)⟩

/-! ### Sub-pixel blending (C5) -/

theorem mult_eq_div (v m : Nat) (hv : v ≤ 255) (hm : m ≤ 256) : mult v m = v * m / 256 := by
  unfold mult
  rw [Nat.shiftRight_eq_div_pow]
  have : v * m ≤ 255 * 256 := Nat.mul_le_mul hv hm
  omega

/-- C5: for a channel value `c` in 0..255 and a fractional part `f` in 1..255,
the two contributions `mult(c, 256 - f)` and `mult(c, f)` sum to `c` or to
`c - 1`; and `mult(c, 256) = c`, the single contribution when `f = 0`. -/
theorem blend_conserves_brightness (c f : Nat) (hc : c ≤ 255) (hf1 : 1 ≤ f) (hf : f ≤ 255) :
    (mult c (256 - f) + mult c f = c ∨ mult c (256 - f) + mult c f + 1 = c) ∧
      mult c 256 = c := by
  rw [mult_eq_div c _ hc (by omega), mult_eq_div c f hc (by omega),
    mult_eq_div c 256 hc (by omega)]
  have h1 : c * (256 - f) = c * 256 - c * f := Nat.mul_sub c 256 f
  have h2 : c * f ≤ c * 255 := Nat.mul_le_mul_left c hf
  have h3 : c * 1 ≤ c * f := Nat.mul_le_mul_left c hf1
  rw [h1]
  omega

theorem blend_conserves_brightness_witness :
    (200 ≤ 255 ∧ 1 ≤ 100 ∧ 100 ≤ 255) ∧
    ((mult 200 (256 - 100) + mult 200 100 = 200 ∨
      mult 200 (256 - 100) + mult 200 100 + 1 = 200) ∧ mult 200 256 = 200) :=
  ⟨by decide, blend_conserves_brightness 200 100 (by decide) (by decide) (by decide)⟩

/-! ### Reversed rendering (C6) -/

theorem reverse_set_mirror (l : List rgb) (i : Nat) (h : i < l.length) (x : rgb) :
    (l.set i x).reverse = l.reverse.set (l.length - 1 - i) x := by
  apply List.ext_getElem?
  intro j
  by_cases hj : j < l.length
  · rw [List.getElem?_reverse (by simpa using hj), List.getElem?_set, List.getElem?_set,
      List.getElem?_reverse hj, List.length_set, List.length_reverse]
    by_cases hij : i = l.length - 1 - j
    · have hji : l.length - 1 - i = j := by omega
      rw [if_pos hij, if_pos hji]
      split_ifs <;> first | rfl | omega
    · have hji : ¬ l.length - 1 - i = j := by omega
      rw [if_neg hij, if_neg hji]
  · rw [List.getElem?_eq_none (by simpa using hj), List.getElem?_eq_none (by simpa using hj)]

theorem add_clipped_at_reverse (leds : List rgb) (i : Nat) (v : rgb) (h : i < leds.length) :
    add_clipped_at leds.reverse (leds.length - 1 - i) v =
      (add_clipped_at leds i v).map List.reverse := by
  have h' : leds.length - 1 - i < leds.reverse.length := by
    rw [List.length_reverse]; omega
  rw [add_clipped_at_of_lt leds i v h, add_clipped_at_of_lt leds.reverse _ v h',
    Option.map_some', reverse_set_mirror leds i h, List.getElem_reverse]
  have : leds.length - 1 - (leds.length - 1 - i) = i := by omega
  simp only [this]

theorem apply_ops_reverse (ops : List (Nat × rgb)) (leds : List rgb)
    (h : ∀ op ∈ ops, op.1 < leds.length) :
    apply_ops leds.reverse (ops.map (fun op => (leds.length - 1 - op.1, op.2))) =
      (apply_ops leds ops).map List.reverse := by
  induction ops generalizing leds with
  | nil => rfl
  | cons op ops ih =>
    have h0 : op.1 < leds.length := h op (List.mem_cons_self _ _)
    rw [List.map_cons, apply_ops_cons, apply_ops_cons, add_clipped_at_reverse leds op.1 op.2 h0,
      add_clipped_at_of_lt leds op.1 op.2 h0]
    simp only [Option.map_some', Option.some_bind]
    have hlen : (leds.set op.1 (add_clipped_to leds[op.1] op.2)).length = leds.length :=
      List.length_set _ _ _
    have := ih (leds.set op.1 (add_clipped_to leds[op.1] op.2))
      (fun o ho => by rw [hlen]; exact h o (List.mem_cons_of_mem _ ho))
    rw [hlen] at this
    exact this

theorem draw_ops_reverse (d : droplet) (max_pos : Nat) (hm : max_pos ≤ 255)
    (hpos : d.position ≤ max_pos * 256) :
    d.draw_ops max_pos true =
      (d.draw_ops max_pos false).map (fun op => (max_pos - op.1, op.2)) := by
  have h8 := position8_eq d (by omega)
  have hr := remainder_eq d
  have hp : d.draw_pos max_pos true = max_pos - d.draw_pos max_pos false := by
    simp only [droplet.draw_pos, h8, to_u8, Bool.false_eq_true, if_false, if_true]
    omega
  have hp1 : d.remainder ≠ 0 →
      d.draw_pos1 max_pos true = max_pos - d.draw_pos1 max_pos false := by
    intro hne
    simp only [droplet.draw_pos1, droplet.draw_pos, h8, to_u8, Bool.false_eq_true, if_false,
      if_true]
    omega
  have hl : draw_last max_pos true = max_pos - draw_last max_pos false := by
    simp [draw_last]
  have hf : draw_first max_pos true = max_pos - draw_first max_pos false := by
    simp [draw_first]
  unfold droplet.draw_ops
  split_ifs with h1 h2 h3 h4 h5 <;>
    simp only [List.map_append, List.map_cons, List.map_nil, hp, hl, hf] <;>
    rw [hp1 h2]

/-- C6: on a strip of `max_pos + 1` cells, for a droplet with
`position ≤ max_pos << 8`, drawing with `reverse = true` into the mirrored buffer
gives the mirror image of drawing with `reverse = false` into the buffer; the
statements executed are the same with each index `i` replaced by `max_pos - i`. -/
theorem reversed_draw_is_mirror (d : droplet) (leds : List rgb) (max_pos : Nat)
    (hm : max_pos ≤ 255) (hlen : leds.length = max_pos + 1)
    (hpos : d.position ≤ max_pos <<< 8) :
    d.draw leds.reverse max_pos true = (d.draw leds max_pos false).map List.reverse ∧
    d.draw_ops max_pos true =
      (d.draw_ops max_pos false).map (fun op => (max_pos - op.1, op.2)) := by
  rw [Nat.shiftLeft_eq] at hpos
  have hops := draw_ops_reverse d max_pos hm hpos
  refine ⟨?_, hops⟩
  have hidx := (draw_ops_index_lt d max_pos false hm (fun _ => hpos)).2.2.2
  rw [draw_eq_apply_ops, draw_eq_apply_ops, hops]
  have := apply_ops_reverse (d.draw_ops max_pos false) leds
    (fun op hop => by rw [hlen]; exact hidx op hop)
  rw [hlen] at this
  simpa using this

theorem reversed_draw_is_mirror_witness :
    ((2 : Nat) ≤ 255 ∧ [(⟨0, 0, 0⟩ : rgb), ⟨1, 2, 3⟩, ⟨250, 5, 6⟩].length = 2 + 1 ∧
      (droplet.mk ⟨255, 255, 0⟩ 300 10 5 bouncing).position ≤ 2 <<< 8) ∧
    ((droplet.mk ⟨255, 255, 0⟩ 300 10 5 bouncing).draw
        [(⟨0, 0, 0⟩ : rgb), ⟨1, 2, 3⟩, ⟨250, 5, 6⟩].reverse 2 true =
      ((droplet.mk ⟨255, 255, 0⟩ 300 10 5 bouncing).draw
        [(⟨0, 0, 0⟩ : rgb), ⟨1, 2, 3⟩, ⟨250, 5, 6⟩] 2 false).map List.reverse ∧
    (droplet.mk ⟨255, 255, 0⟩ 300 10 5 bouncing).draw_ops 2 true =
      ((droplet.mk ⟨255, 255, 0⟩ 300 10 5 bouncing).draw_ops 2 false).map
        (fun op => (2 - op.1, op.2))) :=
  ⟨by decide, reversed_draw_is_mirror (droplet.mk ⟨255, 255, 0⟩ 300 10 5 bouncing)
    [(⟨0, 0, 0⟩ : rgb), ⟨1, 2, 3⟩, ⟨250, 5, 6⟩] 2 (by decide) (by decide) (by decide)⟩

/-! ### Free fall and the bounce (C7) -/

theorem steps_add (d : droplet) (maxpos a b : Nat) :
    d.steps maxpos (a + b) = (d.steps maxpos a).steps maxpos b := by
  induction b with
  | zero => rfl
  | succ b ih =>
    show (d.steps maxpos (a + b)).step maxpos = ((d.steps maxpos a).steps maxpos b).step maxpos
    rw [ih]

theorem fall_position_eq (k : Nat) : 2 * fall_position k + 5 * k = 5 * k * k := by
  induction k with
  | zero => rfl
  | succ k ih =>
    simp only [fall_position]
    nlinarith

theorem fall_position_mono (k : Nat) : fall_position k ≤ fall_position (k + 1) := by
  simp only [fall_position]
  omega

theorem step_falling (d : droplet) (maxpos : Nat) (hs : d.state = falling) :
    d.step maxpos =
      if to_u16 ((d.position : Int) + d.speed) > to_u16 ((maxpos : Int) * 256) then
        { d with
          position := to_u16 ((to_u16 ((maxpos : Int) * 256) : Int) -
            ((to_u16 ((d.position : Int) + d.speed) : Int) - (to_u16 ((maxpos : Int) * 256) : Int)))
          speed := to_i16 (Int.tdiv (-(to_i16 (d.speed + (d.gravity : Int)))) 4)
          color := scale d.color 10
          state := bouncing }
      else
        { d with
          position := to_u16 ((d.position : Int) + d.speed)
          speed := to_i16 (d.speed + (d.gravity : Int)) } := by
  unfold droplet.step
  simp [hs]

/-- Free fall: a falling pool droplet at rest at the top is, after `k` steps whose
positions all stay on the strip, at `fall_position k` with speed `5 k`. -/
theorem steps_falling (c : rgb) (maxpos : Nat) (hm : maxpos ≤ 254) (k : Nat)
    (hk : fall_position k ≤ maxpos * 256) :
    ({ color := c, position := 0, speed := 0, gravity := 5, state := falling } : droplet).steps
        maxpos k =
      { color := c, position := fall_position k, speed := 5 * (k : Int), gravity := 5,
        state := falling } := by
  induction k with
  | zero => rfl
  | succ k ih =>
    have hk' : fall_position k ≤ maxpos * 256 := le_trans (fall_position_mono k) hk
    show (droplet.steps _ maxpos k).step maxpos = _
    rw [ih hk', step_falling _ _ rfl]
    simp only [fall_position] at hk ⊢
    have hp : to_u16 (((fall_position k : Nat) : Int) + 5 * (k : Int)) =
        fall_position k + 5 * k := by
      simp only [to_u16]; omega
    have hM : to_u16 ((maxpos : Int) * 256) = maxpos * 256 := by
      simp only [to_u16]; omega
    have hv : to_i16 (5 * (k : Int) + ((5 : Nat) : Int)) = 5 * ((k + 1 : Nat) : Int) := by
      have := fall_count_le k _ _ (fall_position_eq k) hk' (by omega)
      simp only [to_i16]; push_cast; omega
    rw [hp, hM, if_neg (by omega), hv]

theorem fall_position_le_of_le (a b : Nat) (h : a ≤ b) : fall_position a ≤ fall_position b := by
  induction b with
  | zero =>
    have : a = 0 := by omega
    rw [this]
  | succ b ih =>
    rcases Nat.lt_or_ge a (b + 1) with h1 | h1
    · exact le_trans (ih (by omega)) (fall_position_mono b)
    · have : a = b + 1 := by omega
      rw [this]

theorem tdiv_neg_four (v : Int) (hv : 0 ≤ v) : Int.tdiv (-v) 4 = -(v / 4) := by
  rw [Int.neg_tdiv, Int.tdiv_eq_ediv hv (by decide)]

theorem tdiv_neg_four_of_neg (v : Int) (hv : v ≤ 0) : Int.tdiv (-v) 4 = (-v) / 4 := by
  rw [Int.tdiv_eq_ediv (by omega) (by decide)]

theorem to_i16_tdiv (x : Int) : to_i16 (Int.tdiv (-(to_i16 x)) 4) = Int.tdiv (-(to_i16 x)) 4 := by
  have hr : -32768 ≤ to_i16 x ∧ to_i16 x ≤ 32767 := by
    simp only [to_i16]; omega
  rcases Int.le_total 0 (to_i16 x) with h | h
  · rw [tdiv_neg_four _ h]
    simp only [to_i16] at hr ⊢
    omega
  · rw [tdiv_neg_four_of_neg _ h]
    simp only [to_i16] at hr ⊢
    omega

theorem bounce_step (d : droplet) (maxpos : Nat) (hs : d.state = falling)
    (hex : to_u16 ((d.position : Int) + d.speed) > to_u16 ((maxpos : Int) * 256)) :
    (d.step maxpos).state = bouncing ∧
    (d.step maxpos).position =
      to_u16 (2 * (to_u16 ((maxpos : Int) * 256) : Int) -
        (to_u16 ((d.position : Int) + d.speed) : Int)) ∧
    (to_u16 ((d.position : Int) + d.speed) ≤ 2 * to_u16 ((maxpos : Int) * 256) →
      (d.step maxpos).position + to_u16 ((d.position : Int) + d.speed) =
        2 * to_u16 ((maxpos : Int) * 256)) ∧
    (d.step maxpos).speed = Int.tdiv (-(to_i16 (d.speed + (d.gravity : Int)))) 4 ∧
    (d.step maxpos).speed.natAbs = (to_i16 (d.speed + (d.gravity : Int))).natAbs / 4 ∧
    (4 ≤ to_i16 (d.speed + (d.gravity : Int)) → (d.step maxpos).speed < 0) ∧
    (d.step maxpos).color.blue = mult d.color.blue 10 ∧
    (d.color.blue = 0 → (d.step maxpos).color.blue = 0) := by
  rw [step_falling d maxpos hs, if_pos hex]
  simp only [to_i16_tdiv]
  refine ⟨trivial, ?_, ?_, trivial, ?_, ?_, rfl, ?_⟩
  · congr 1; ring
  · intro h
    simp only [to_u16] at h hex ⊢
    omega
  · rw [Int.natAbs_tdiv, Int.natAbs_neg]; rfl
  · intro h4
    rw [tdiv_neg_four _ (by omega)]
    omega
  · intro hb
    simp [scale, mult, hb]

theorem fall_exceeds (M : Nat) : ∃ k, M < fall_position (k + 1) := by
  refine ⟨M + 1, ?_⟩
  simp only [fall_position]
  omega

theorem yellow_first_step (maxpos : Nat) :
    (droplet.mk_active ⟨255, 255, 0⟩ 5).steps maxpos 1 =
      { color := ⟨255, 255, 0⟩, position := 0, speed := 0, gravity := 5, state := falling } := by
  show (droplet.mk_active ⟨255, 255, 0⟩ 5).step maxpos = _
  simp [droplet.step, droplet.mk_active]

/-- The first impact of the yellow pool droplet on a strip of 2..255 cells. -/
theorem yellow_first_impact (ledcount : Nat) (h2 : 2 ≤ ledcount) (h255 : ledcount ≤ 255) :
    ∃ j k : Nat,
      (∀ i, i ≤ j →
        ((droplet.mk_active ⟨255, 255, 0⟩ 5).steps (ledcount - 1) i).state = swelling ∨
        ((droplet.mk_active ⟨255, 255, 0⟩ 5).steps (ledcount - 1) i).state = falling) ∧
      (droplet.mk_active ⟨255, 255, 0⟩ 5).steps (ledcount - 1) j =
        { color := ⟨255, 255, 0⟩, position := fall_position k, speed := 5 * (k : Int),
          gravity := 5, state := falling } ∧
      fall_position k ≤ (ledcount - 1) * 256 ∧
      (ledcount - 1) * 256 < fall_position k + 5 * k ∧
      fall_position k + 5 * k ≤ 2 * ((ledcount - 1) * 256) ∧
      fall_position k + 5 * k < 65536 ∧ 10 ≤ k ∧ k ≤ 161 := by
  classical
  let M := (ledcount - 1) * 256
  have hex := fall_exceeds M
  let k := Nat.find hex
  have hk : M < fall_position (k + 1) := Nat.find_spec hex
  have hle : fall_position k ≤ M := by
    rcases Nat.eq_zero_or_pos k with h0 | h0
    · rw [h0]; exact Nat.zero_le _
    · have := Nat.find_min hex (m := k - 1) (by omega)
      have e : k - 1 + 1 = k := by omega
      rw [e] at this
      omega
  have hsteps : ∀ i, i ≤ k →
      (droplet.mk_active ⟨255, 255, 0⟩ 5).steps (ledcount - 1) (1 + i) =
        { color := ⟨255, 255, 0⟩, position := fall_position i, speed := 5 * (i : Int),
          gravity := 5, state := falling } := by
    intro i hi
    rw [steps_add, yellow_first_step]
    exact steps_falling _ _ (by omega) i (le_trans (fall_position_le_of_le i k hi) hle)
  have h161 := fall_count_le k _ M (fall_position_eq k) hle (by omega)
  have hvM := fall_speed_le k _ M (fall_position_eq k) hle (by omega)
  have hk' : M < fall_position k + 5 * k := by
    simpa only [fall_position] using hk
  have h10 : 10 ≤ k := by
    by_contra hlt
    have h9 : k ≤ 9 := by omega
    have := fall_position_le_of_le (k + 1) 10 (by omega)
    have e : fall_position 10 = 225 := by decide
    omega
  have hnw : fall_position k + 5 * k < 65536 := by
    have h1 : k * k ≤ 161 * k := Nat.mul_le_mul_right k h161
    have h3 : 5 * k * k = 5 * (k * k) := Nat.mul_assoc 5 k k
    have := fall_position_eq k
    omega
  refine ⟨1 + k, k, ?_, hsteps k le_rfl, hle, hk', by omega, hnw, h10, h161⟩
  intro i hi
  rcases Nat.eq_zero_or_pos i with h0 | h0
  · left; rw [h0]; rfl
  · right
    have e : i = 1 + (i - 1) := by omega
    rw [e, hsteps (i - 1) (by omega)]

/-- C7, as amended: whenever a falling droplet makes a step whose advanced position
exceeds `maxpos16`, the state becomes bouncing, the position becomes
`2*maxpos16 - position` reduced modulo 2^16 (exactly `2*maxpos16 - position` when
the advanced position is at most `2*maxpos16`), the speed becomes `-v/4` truncated
toward zero, `v` being the speed after the gravity of this step was added, and a
blue channel of 0 stays 0. For the droplet spawned with colour (255,255,0) and
gravity 5 on a strip of `ledcount` cells, `2 ≤ ledcount ≤ 255`, such a first step
exists, its position is exactly `2*maxpos16 - position`, its new speed is
negative, and `color.blue` is still 0. -/
theorem bounce_transition (ledcount : Nat) (h2 : 2 ≤ ledcount) (h255 : ledcount ≤ 255) :
    (∀ (d : droplet) (maxpos : Nat), d.state = falling →
      to_u16 ((d.position : Int) + d.speed) > to_u16 ((maxpos : Int) * 256) →
      (d.step maxpos).state = bouncing ∧
      (d.step maxpos).position =
        to_u16 (2 * (to_u16 ((maxpos : Int) * 256) : Int) -
          (to_u16 ((d.position : Int) + d.speed) : Int)) ∧
      (to_u16 ((d.position : Int) + d.speed) ≤ 2 * to_u16 ((maxpos : Int) * 256) →
        (d.step maxpos).position + to_u16 ((d.position : Int) + d.speed) =
          2 * to_u16 ((maxpos : Int) * 256)) ∧
      (d.step maxpos).speed = Int.tdiv (-(to_i16 (d.speed + (d.gravity : Int)))) 4 ∧
      (d.step maxpos).speed.natAbs = (to_i16 (d.speed + (d.gravity : Int))).natAbs / 4 ∧
      (4 ≤ to_i16 (d.speed + (d.gravity : Int)) → (d.step maxpos).speed < 0) ∧
      (d.step maxpos).color.blue = mult d.color.blue 10 ∧
      (d.color.blue = 0 → (d.step maxpos).color.blue = 0)) ∧
    (∃ j : Nat,
      (∀ i, i ≤ j →
        ((droplet.mk_active ⟨255, 255, 0⟩ 5).steps (ledcount - 1) i).state = swelling ∨
        ((droplet.mk_active ⟨255, 255, 0⟩ 5).steps (ledcount - 1) i).state = falling) ∧
      ((droplet.mk_active ⟨255, 255, 0⟩ 5).steps (ledcount - 1) j).state = falling ∧
      to_u16 ((((droplet.mk_active ⟨255, 255, 0⟩ 5).steps (ledcount - 1) j).position : Int) +
          ((droplet.mk_active ⟨255, 255, 0⟩ 5).steps (ledcount - 1) j).speed) >
        (ledcount - 1) <<< 8 ∧
      ((droplet.mk_active ⟨255, 255, 0⟩ 5).steps (ledcount - 1) (j + 1)).state = bouncing ∧
      ((droplet.mk_active ⟨255, 255, 0⟩ 5).steps (ledcount - 1) (j + 1)).position +
          to_u16 ((((droplet.mk_active ⟨255, 255, 0⟩ 5).steps (ledcount - 1) j).position : Int) +
            ((droplet.mk_active ⟨255, 255, 0⟩ 5).steps (ledcount - 1) j).speed) =
        2 * ((ledcount - 1) <<< 8) ∧
      0 < ((droplet.mk_active ⟨255, 255, 0⟩ 5).steps (ledcount - 1) j).speed + 5 ∧
      ((droplet.mk_active ⟨255, 255, 0⟩ 5).steps (ledcount - 1) (j + 1)).speed =
        -((((droplet.mk_active ⟨255, 255, 0⟩ 5).steps (ledcount - 1) j).speed + 5) / 4) ∧
      ((droplet.mk_active ⟨255, 255, 0⟩ 5).steps (ledcount - 1) (j + 1)).speed < 0 ∧
      ((droplet.mk_active ⟨255, 255, 0⟩ 5).steps (ledcount - 1) (j + 1)).color.blue = 0) := by
  refine ⟨fun d maxpos hs hex => bounce_step d maxpos hs hex, ?_⟩
  obtain ⟨j, k, hall, hj, hle, hgt, h2M, hnw, h10, h161⟩ := yellow_first_impact ledcount h2 h255
  have hM : to_u16 (((ledcount - 1 : Nat) : Int) * 256) = (ledcount - 1) * 256 := by
    simp only [to_u16]; omega
  have hp : to_u16 (((fall_position k : Nat) : Int) + 5 * (k : Int)) =
      fall_position k + 5 * k := by
    simp only [to_u16]; omega
  have hv : to_i16 (5 * (k : Int) + ((5 : Nat) : Int)) = 5 * (k : Int) + 5 := by
    simp only [to_i16]; push_cast; omega
  have hb := bounce_step
    { color := ⟨255, 255, 0⟩, position := fall_position k, speed := 5 * (k : Int),
      gravity := 5, state := falling } (ledcount - 1) rfl (by rw [hp, hM]; exact hgt)
  simp only [hp, hM, hv] at hb
  obtain ⟨b1, -, b3, b4, -, b6, -, b8⟩ := hb
  have hstep : (droplet.mk_active ⟨255, 255, 0⟩ 5).steps (ledcount - 1) (j + 1) =
      droplet.step (droplet.mk ⟨255, 255, 0⟩ (fall_position k) (5 * (k : Int)) 5 falling)
        (ledcount - 1) := by
    show ((droplet.mk_active ⟨255, 255, 0⟩ 5).steps (ledcount - 1) j).step _ = _
    rw [hj]
  refine ⟨j, hall, ?_, ?_, ?_, ?_, ?_, ?_, ?_, ?_⟩
  · rw [hj]
  · rw [hj, Nat.shiftLeft_eq]; simp only [hp]; exact hgt
  · rw [hstep]; exact b1
  · rw [hstep, hj, Nat.shiftLeft_eq]; simp only [hp]; exact b3 h2M
  · rw [hj]; simp only; omega
  · rw [hstep, hj, b4]; simp only
    exact tdiv_neg_four _ (by omega)
  · rw [hstep]; exact b6 (by omega)
  · rw [hstep]; exact b8 trivial

theorem bounce_transition_witness :
    (2 ≤ 2 ∧ 2 ≤ 255) ∧
    ((droplet.step (droplet.mk ⟨255, 255, 0⟩ 225 50 5 falling) 1).state = bouncing ∧
     (droplet.step (droplet.mk ⟨255, 255, 0⟩ 225 50 5 falling) 1).position + 275 = 2 * 256) :=
  ⟨by decide,
    ((bounce_transition 2 (by decide) (by decide)).1
      (droplet.mk ⟨255, 255, 0⟩ 225 50 5 falling) 1 rfl (by decide)).1,
    ((bounce_transition 2 (by decide) (by decide)).1
      (droplet.mk ⟨255, 255, 0⟩ 225 50 5 falling) 1 rfl (by decide)).2.2.1 (by decide)⟩

/-- C7 fails on a strip of one cell: the yellow pool droplet is falling after two
steps, its advanced position 5 exceeds `maxpos16 = 0`, and the third step leaves it
bouncing at position 65531, which is not `2*maxpos16 - 5`. -/
theorem bounce_position_wraps_one_led :
    ((droplet.mk_active ⟨255, 255, 0⟩ 5).steps (1 - 1) 2).state = falling ∧
    to_u16 ((((droplet.mk_active ⟨255, 255, 0⟩ 5).steps (1 - 1) 2).position : Int) +
      ((droplet.mk_active ⟨255, 255, 0⟩ 5).steps (1 - 1) 2).speed) = 5 ∧
    5 > (1 - 1) <<< 8 ∧
    ((droplet.mk_active ⟨255, 255, 0⟩ 5).steps (1 - 1) 3).state = bouncing ∧
    ((droplet.mk_active ⟨255, 255, 0⟩ 5).steps (1 - 1) 3).position = 65531 ∧
    (((droplet.mk_active ⟨255, 255, 0⟩ 5).steps (1 - 1) 3).position : Int) ≠
      2 * (((1 - 1) <<< 8 : Nat) : Int) - 5 := by
  decide

/-! ### The collision factor and the swelling phase (C8, C9) -/

/-- C8: on the bounce of a white falling droplet the code leaves 9 in every channel,
which is `floor(255 * 10 / 256)`, whereas scaling by `collision_scaling` would
leave 39; and `step` changes the colour only in the falling to bouncing transition. -/
theorem collision_scaling_not_applied :
    (droplet.step (droplet.mk ⟨255, 255, 255⟩ 225 50 5 falling) 1).state = bouncing ∧
    (droplet.step (droplet.mk ⟨255, 255, 255⟩ 225 50 5 falling) 1).color = ⟨9, 9, 9⟩ ∧
    scale ⟨255, 255, 255⟩ collision_scaling = ⟨39, 39, 39⟩ ∧
    (∀ (d : droplet) (maxpos : Nat),
      (d.step maxpos).color = d.color ∨
      (d.state = falling ∧ (d.step maxpos).state = bouncing ∧
        (d.step maxpos).color = scale d.color 10)) := by
  refine ⟨by decide, by decide, by decide, ?_⟩
  intro d maxpos
  unfold droplet.step
  cases hst : d.state <;> simp <;> (try split_ifs) <;> simp

theorem swelling_steps (c : rgb) (gravity maxpos : Nat) (hb : c.blue ≤ 255) (j : Nat)
    (hj : j + 10 < c.blue) :
    (droplet.mk_active c gravity).steps maxpos j =
      { color := c, position := j, speed := 0, gravity := gravity, state := swelling } := by
  induction j with
  | zero => rfl
  | succ j ih =>
    show ((droplet.mk_active c gravity).steps maxpos j).step maxpos = _
    rw [ih (by omega)]
    have hp : to_u16 (((j : Nat) : Int) + 1) = j + 1 := by
      simp only [to_u16]; omega
    unfold droplet.step
    simp only [reduceCtorEq, false_or, if_false, if_true, hp]
    rw [if_neg]
    push_neg
    constructor <;> push_cast <;> omega

/-- C9: a droplet spawned with blue channel `b > 10` is still swelling, at position
`j`, after each of its first `j ≤ b - 11` steps, and step number `b - 10`, whose
incremented position is `b - 10`, makes it falling with position 0; with `b ≤ 10`
the first step makes it falling with position 0. -/
theorem swelling_duration (c : rgb) (gravity maxpos : Nat) (hb : c.blue ≤ 255) :
    (10 < c.blue →
      (∀ j, j ≤ c.blue - 11 →
        ((droplet.mk_active c gravity).steps maxpos j).state = swelling ∧
        ((droplet.mk_active c gravity).steps maxpos j).position = j) ∧
      to_u16 ((((droplet.mk_active c gravity).steps maxpos (c.blue - 11)).position : Int) + 1) =
        c.blue - 10 ∧
      ((droplet.mk_active c gravity).steps maxpos (c.blue - 10)).state = falling ∧
      ((droplet.mk_active c gravity).steps maxpos (c.blue - 10)).position = 0) ∧
    (c.blue ≤ 10 →
      ((droplet.mk_active c gravity).steps maxpos 1).state = falling ∧
      ((droplet.mk_active c gravity).steps maxpos 1).position = 0) := by
  constructor
  · intro h10
    have hlast := swelling_steps c gravity maxpos hb (c.blue - 11) (by omega)
    have hp : to_u16 (((c.blue - 11 : Nat) : Int) + 1) = c.blue - 10 := by
      simp only [to_u16]; omega
    refine ⟨?_, ?_, ?_⟩
    · intro j hj
      rw [swelling_steps c gravity maxpos hb j (by omega)]
      exact ⟨rfl, rfl⟩
    · rw [hlast]; exact hp
    · have e : c.blue - 10 = (c.blue - 11) + 1 := by omega
      rw [e]
      show (((droplet.mk_active c gravity).steps maxpos (c.blue - 11)).step maxpos).state = _ ∧
        (((droplet.mk_active c gravity).steps maxpos (c.blue - 11)).step maxpos).position = _
      rw [hlast]
      unfold droplet.step
      simp only [reduceCtorEq, false_or, if_false, if_true, hp]
      rw [if_pos (Or.inr (by omega))]
      exact ⟨rfl, rfl⟩
  · intro h10
    show ((droplet.mk_active c gravity).step maxpos).state = _ ∧
      ((droplet.mk_active c gravity).step maxpos).position = _
    unfold droplet.step droplet.mk_active
    simp only [reduceCtorEq, false_or, if_false, if_true]
    rw [if_pos (Or.inl h10)]
    exact ⟨rfl, rfl⟩

theorem swelling_duration_witness :
    (50 ≤ 255) ∧
    ((10 < 50 →
      (∀ j, j ≤ 50 - 11 →
        ((droplet.mk_active ⟨0, 0, 50⟩ 5).steps 9 j).state = swelling ∧
        ((droplet.mk_active ⟨0, 0, 50⟩ 5).steps 9 j).position = j) ∧
      to_u16 ((((droplet.mk_active ⟨0, 0, 50⟩ 5).steps 9 (50 - 11)).position : Int) + 1) =
        50 - 10 ∧
      ((droplet.mk_active ⟨0, 0, 50⟩ 5).steps 9 (50 - 10)).state = falling ∧
      ((droplet.mk_active ⟨0, 0, 50⟩ 5).steps 9 (50 - 10)).position = 0) ∧
    (50 ≤ 10 →
      ((droplet.mk_active ⟨0, 0, 50⟩ 5).steps 9 1).state = falling ∧
      ((droplet.mk_active ⟨0, 0, 50⟩ 5).steps 9 1).position = 0)) :=
  ⟨by decide, swelling_duration ⟨0, 0, 50⟩ 5 9 (by decide)⟩

/-! ### The first frames of the pool (C10) -/

theorem max_pos_lt_length (n : Nat) (hn : 0 < n) :
    to_u8 ((to_u8 (n : Int) : Int) - 1) < n ∧ to_u8 ((to_u8 (n : Int) : Int) - 1) ≤ 255 := by
  simp only [to_u8]
  omega

theorem step_draw_inactive (d : droplet) (leds : List rgb) (ledcount : Nat) (reverse : Bool)
    (h : d.state = inactive) : d.step_draw leds ledcount reverse = some (d, leds) := by
  unfold droplet.step_draw
  simp only [step_of_inactive d _ h]
  simp [droplet.draw, h]

theorem set_same (l : List droplet) (i : Nat) (h : i < l.length) : l.set i l[i] = l := by
  apply List.ext_getElem?
  intro j
  rw [List.getElem?_set]
  by_cases h1 : i = j
  · subst h1
    rw [if_pos rfl, if_pos h]
    exact (List.getElem?_eq_getElem h).symm
  · rw [if_neg h1]

theorem step_all_inactive (numPixels : Nat) (reverse : Bool) (leds : List rgb)
    (count idx : Nat) (droplets : List droplet)
    (hlen : idx + count ≤ droplets.length)
    (h : ∀ (i : Nat) (hi : i < droplets.length), idx ≤ i → droplets[i].state = inactive) :
    step_all numPixels reverse count idx droplets leds = some (droplets, leds) := by
  induction count generalizing idx with
  | zero => rfl
  | succ count ih =>
    have hi : idx < droplets.length := by omega
    unfold step_all
    rw [List.getElem?_eq_getElem hi]
    simp only [Option.bind_eq_bind, Option.some_bind]
    rw [step_draw_inactive _ _ _ _ (h idx hi le_rfl)]
    simp only [Option.some_bind]
    rw [set_same _ _ hi]
    exact ih (idx + 1) (by omega) (fun i hi' hle => h i hi' (by omega))

theorem animate_first_frame (leds : List rgb) (rand : Nat) (reverse : Bool) :
    (WaterTorture.init leds).animate rand reverse =
      some { leds := List.replicate leds.length ⟨0, 0, 0⟩
             droplets := List.replicate droplet_count droplet.mk_default
             current_droplet := 0
             droplet_pause := 0
             current_color_index := 0 } := by
  unfold WaterTorture.animate WaterTorture.spawn WaterTorture.init
  simp only [ne_eq, one_ne_zero, not_false_eq_true, if_true, Option.bind_eq_bind,
    Option.some_bind]
  rw [step_all_inactive _ _ _ _ _ _ (by simp [droplet_count])
    (fun i hi _ => by simp [droplet.mk_default])]
  rfl

theorem yellow_step_draw (leds : List rgb) (hn : 0 < leds.length) (reverse : Bool) :
    ∃ leds', (droplet.mk_active ⟨255, 255, 0⟩ 5).step_draw leds (to_u8 (leds.length : Int))
        reverse =
      some (droplet.mk ⟨255, 255, 0⟩ 0 0 5 falling, leds') := by
  obtain ⟨hlt, h255⟩ := max_pos_lt_length leds.length hn
  unfold droplet.step_draw
  have hs : (droplet.mk_active ⟨255, 255, 0⟩ 5).step
      (to_u8 ((to_u8 (leds.length : Int) : Int) - 1)) =
      droplet.mk ⟨255, 255, 0⟩ 0 0 5 falling := yellow_first_step _
  simp only [hs]
  rw [draw_eq_apply_ops]
  have hidx := (draw_ops_index_lt (droplet.mk ⟨255, 255, 0⟩ 0 0 5 falling)
    (to_u8 ((to_u8 (leds.length : Int) : Int) - 1)) reverse h255
    (fun _ => Nat.zero_le _)).2.2.2
  obtain ⟨l, hl, -⟩ := apply_ops_some _ leds (fun op hop => by
    have := hidx op hop
    omega)
  exact ⟨l, by rw [hl]; rfl⟩

theorem step_all_succ (numPixels : Nat) (reverse : Bool) (count idx : Nat)
    (droplets : List droplet) (leds : List rgb) :
    step_all numPixels reverse (count + 1) idx droplets leds =
      droplets[idx]?.bind (fun d =>
        (d.step_draw leds (to_u8 (numPixels : Int)) reverse).bind (fun p =>
          step_all numPixels reverse count (idx + 1) (droplets.set idx p.1) p.2)) := rfl

theorem spawn_after_countdown (leds : List rgb) (rand : Nat) :
    WaterTorture.spawn
        { leds := leds
          droplets := List.replicate droplet_count droplet.mk_default
          current_droplet := 0
          droplet_pause := 0
          current_color_index := 0 } rand =
      some { leds := leds
             droplets := [droplet.mk_active ⟨255, 255, 0⟩ 5, droplet.mk_default,
               droplet.mk_default, droplet.mk_default]
             current_droplet := 1
             droplet_pause := 100 + rand % 80
             current_color_index := 1 } := by
  have hc : create_random_droplet 0 = some (droplet.mk_active ⟨255, 255, 0⟩ 5, 1) := by
    decide
  have hp : to_u8 (100 + ((rand % 80 : Nat) : Int)) = 100 + rand % 80 := by
    simp only [to_u8]; omega
  have h1 : to_u8 (((0 : Nat) : Int) + 1) = 1 := by decide
  have ha : (!droplet.mk_default.is_active) = true := by decide
  unfold WaterTorture.spawn
  simp only [ne_eq, not_true_eq_false, if_false, droplet_count, List.replicate,
    List.getElem?_cons_zero, Option.bind_eq_bind, Option.some_bind, ha, if_true, hc, hp, h1,
    List.set_cons_zero]
  rfl

/-- C10, as amended: on a strip with at least one pixel, the first `animate` call
on the freshly constructed pool only counts `droplet_pause` down from 1 to 0 and
leaves all four droplets inactive; after the second call slot 0 has been spawned
(is active), `current_droplet` is 1 and `droplet_pause` is `100 + rand() % 80`, a
value in [100, 179], for every value returned by `rand()`. -/
theorem first_spawn_in_second_frame (leds : List rgb) (hn : 0 < leds.length)
    (rand1 rand2 : Nat) (reverse1 reverse2 : Bool) :
    ∃ w1 w2 : WaterTorture,
      (WaterTorture.init leds).animate rand1 reverse1 = some w1 ∧
      w1.droplet_pause = 0 ∧ w1.current_droplet = 0 ∧
      (∀ d ∈ w1.droplets, d.is_active = false) ∧
      w1.animate rand2 reverse2 = some w2 ∧
      (∃ d, w2.droplets[0]? = some d ∧ d.is_active = true) ∧
      w2.current_droplet = 1 ∧
      w2.droplet_pause = 100 + rand2 % 80 ∧
      100 ≤ w2.droplet_pause ∧ w2.droplet_pause ≤ 179 := by
  obtain ⟨leds', hsd⟩ := yellow_step_draw (List.replicate leds.length (⟨0, 0, 0⟩ : rgb))
    (by simpa using hn) reverse2
  rw [List.length_replicate] at hsd
  refine ⟨_, { leds := leds'
               droplets := [droplet.mk ⟨255, 255, 0⟩ 0 0 5 falling, droplet.mk_default,
                 droplet.mk_default, droplet.mk_default]
               current_droplet := 1
               droplet_pause := 100 + rand2 % 80
               current_color_index := 1 },
    animate_first_frame leds rand1 reverse1, rfl, rfl, ?_, ?_, ?_, rfl, rfl, ?_, ?_⟩
  · intro d hd
    rw [List.eq_of_mem_replicate hd]
    rfl
  · unfold WaterTorture.animate
    rw [spawn_after_countdown]
    simp only [Option.bind_eq_bind, Option.some_bind, List.length_replicate]
    have h4 : droplet_count = 3 + 1 := rfl
    rw [h4, step_all_succ]
    simp only [List.getElem?_cons_zero, Option.bind_eq_bind, Option.some_bind, hsd,
      List.set_cons_zero]
    rw [step_all_inactive _ _ _ _ _ _ (by simp)
      (fun i hi hle => by
        match i, hi, hle with
        | 1, _, _ => rfl
        | 2, _, _ => rfl
        | 3, _, _ => rfl)]
    rfl
  · exact ⟨_, rfl, rfl⟩
  · show 100 ≤ 100 + rand2 % 80
    omega
  · show 100 + rand2 % 80 ≤ 179
    omega

theorem first_spawn_in_second_frame_witness :
    (0 < [(⟨7, 7, 7⟩ : rgb), ⟨1, 2, 3⟩].length) ∧
    (∃ w1 w2 : WaterTorture,
      (WaterTorture.init [(⟨7, 7, 7⟩ : rgb), ⟨1, 2, 3⟩]).animate 12345 false = some w1 ∧
      w1.droplet_pause = 0 ∧ w1.current_droplet = 0 ∧
      (∀ d ∈ w1.droplets, d.is_active = false) ∧
      w1.animate 54321 true = some w2 ∧
      (∃ d, w2.droplets[0]? = some d ∧ d.is_active = true) ∧
      w2.current_droplet = 1 ∧
      w2.droplet_pause = 100 + 54321 % 80 ∧
      100 ≤ w2.droplet_pause ∧ w2.droplet_pause ≤ 179) :=
  ⟨by decide, first_spawn_in_second_frame [(⟨7, 7, 7⟩ : rgb), ⟨1, 2, 3⟩] (by decide)
    12345 54321 false true⟩

/-- C10 fails after one frame: on the freshly constructed pool a single `animate`
call leaves every slot inactive and `droplet_pause` at 0, which is not in
[100, 179]. -/
theorem no_spawn_in_first_frame :
    ((WaterTorture.init [(⟨7, 7, 7⟩ : rgb), ⟨1, 2, 3⟩]).animate 12345 false).map
        (fun w => (w.droplets.map droplet.is_active, w.droplet_pause)) =
      some ([false, false, false, false], 0) ∧
    ¬ (100 ≤ (0 : Nat) ∧ (0 : Nat) ≤ 179) := by
  decide

/-! ### The scheduling rule, inert droplets and the frame clear (C11, C14, C15) -/

theorem animate_some (w w' : WaterTorture) (rand : Nat) (reverse : Bool)
    (h : w.animate rand reverse = some w') :
    ∃ (w1 : WaterTorture) (ds : List droplet) (leds' : List rgb),
      w.spawn rand = some w1 ∧
      step_all w1.leds.length reverse droplet_count 0 w1.droplets
        (List.replicate w1.leds.length ⟨0, 0, 0⟩) = some (ds, leds') ∧
      w' = { w1 with droplets := ds, leds := leds' } := by
  unfold WaterTorture.animate at h
  cases hs : w.spawn rand with
  | none => simp [hs] at h
  | some w1 =>
    simp only [hs, Option.bind_eq_bind, Option.some_bind] at h
    cases hst : step_all w1.leds.length reverse droplet_count 0 w1.droplets
        (List.replicate w1.leds.length ⟨0, 0, 0⟩) with
    | none => simp [hst] at h
    | some p =>
      obtain ⟨ds, leds'⟩ := p
      simp only [hst, Option.some_bind, Option.some.injEq] at h
      exact ⟨w1, ds, leds', rfl, hst, h.symm⟩

theorem spawn_countdown (w : WaterTorture) (rand : Nat) (h0 : 0 < w.droplet_pause)
    (hp : w.droplet_pause ≤ 255) :
    w.spawn rand = some { w with droplet_pause := w.droplet_pause - 1 } := by
  unfold WaterTorture.spawn
  have h1 : to_u8 ((w.droplet_pause : Int) - 1) = w.droplet_pause - 1 := by
    simp only [to_u8]; omega
  rw [if_pos (by omega), h1]

theorem spawn_active (w : WaterTorture) (rand : Nat) (d : droplet) (h0 : w.droplet_pause = 0)
    (hd : w.droplets[w.current_droplet]? = some d) (ha : d.is_active = true) :
    w.spawn rand = some w := by
  unfold WaterTorture.spawn
  rw [if_neg (by simp [h0]), hd]
  simp [ha]

theorem spawn_inactive (w : WaterTorture) (rand : Nat) (d : droplet) (h0 : w.droplet_pause = 0)
    (hcur : w.current_droplet < droplet_count)
    (hcol : w.current_color_index < num_droplet_colors)
    (hd : w.droplets[w.current_droplet]? = some d) (ha : d.is_active = false) :
    ∃ c, droplet_colors[w.current_color_index]? = some c ∧
      w.spawn rand = some { w with
        droplets := w.droplets.set w.current_droplet (droplet.mk c 0 0 5 swelling)
        current_droplet := (w.current_droplet + 1) % 4
        droplet_pause := 100 + rand % 80
        current_color_index := (w.current_color_index + 1) % 5 } := by
  have hcol' : w.current_color_index < droplet_colors.length := hcol
  refine ⟨droplet_colors[w.current_color_index], List.getElem?_eq_getElem hcol', ?_⟩
  have hc : create_random_droplet w.current_color_index =
      some (droplet.mk droplet_colors[w.current_color_index] 0 0 5 swelling,
        (w.current_color_index + 1) % 5) := by
    unfold create_random_droplet
    rw [List.getElem?_eq_getElem hcol']
    simp only [Option.bind_eq_bind, Option.some_bind, droplet.mk_active, Option.some.injEq,
      Prod.mk.injEq, true_and]
    simp only [to_u8, num_droplet_colors, droplet_colors, List.length_cons, List.length_nil]
    omega
  have hp : to_u8 (100 + ((rand % 80 : Nat) : Int)) = 100 + rand % 80 := by
    simp only [to_u8]; omega
  have h1 : to_u8 ((w.current_droplet : Int) + 1) = w.current_droplet + 1 := by
    simp only [to_u8, droplet_count] at hcur ⊢; omega
  have hnext : (if w.current_droplet + 1 ≥ droplet_count then 0 else w.current_droplet + 1) =
      (w.current_droplet + 1) % 4 := by
    simp only [droplet_count] at hcur ⊢
    split_ifs <;> omega
  unfold WaterTorture.spawn
  rw [if_neg (by simp [h0]), hd]
  simp only [Option.bind_eq_bind, Option.some_bind, ha, Bool.not_false, if_true, hc, hp, h1,
    hnext]

/-- C11: the scheduling rule of `animate`, in a pool state with a valid slot index
and palette index. (1) With `droplet_pause > 0` the spawn step only decrements
`droplet_pause` by one. (2) With `droplet_pause = 0` and an inactive droplet in
slot `current_droplet`, that slot is overwritten by a swelling droplet with
gravity 5 and the palette colour, `current_droplet` becomes
`(current_droplet + 1) mod 4`, the palette index advances modulo 5 and
`droplet_pause` becomes `100 + rand() mod 80`, in [100, 179]. (3) With
`droplet_pause = 0` and an active droplet in that slot nothing changes. The rest
of `animate` leaves `current_droplet`, `droplet_pause` and the palette index as
the spawn step set them. -/
theorem scheduling_rule (w : WaterTorture) (rand : Nat) (d : droplet)
    (hcur : w.current_droplet < droplet_count)
    (hcol : w.current_color_index < num_droplet_colors)
    (hp : w.droplet_pause ≤ 255)
    (hd : w.droplets[w.current_droplet]? = some d) :
    (0 < w.droplet_pause →
      w.spawn rand = some { w with droplet_pause := w.droplet_pause - 1 }) ∧
    (w.droplet_pause = 0 → d.is_active = false →
      ∃ c, droplet_colors[w.current_color_index]? = some c ∧
        w.spawn rand = some { w with
          droplets := w.droplets.set w.current_droplet (droplet.mk c 0 0 5 swelling)
          current_droplet := (w.current_droplet + 1) % 4
          droplet_pause := 100 + rand % 80
          current_color_index := (w.current_color_index + 1) % 5 } ∧
        100 ≤ 100 + rand % 80 ∧ 100 + rand % 80 ≤ 179) ∧
    (w.droplet_pause = 0 → d.is_active = true → w.spawn rand = some w) ∧
    (∀ (reverse : Bool) (w' : WaterTorture), w.animate rand reverse = some w' →
      ∃ w1, w.spawn rand = some w1 ∧ w'.current_droplet = w1.current_droplet ∧
        w'.droplet_pause = w1.droplet_pause ∧
        w'.current_color_index = w1.current_color_index) := by
  refine ⟨fun h0 => spawn_countdown w rand h0 hp, ?_, fun h0 ha => spawn_active w rand d h0 hd ha,
    ?_⟩
  · intro h0 ha
    obtain ⟨c, hc, hs⟩ := spawn_inactive w rand d h0 hcur hcol hd ha
    exact ⟨c, hc, hs, by omega, by omega⟩
  · intro reverse w' h
    obtain ⟨w1, ds, leds', hs, -, hw⟩ := animate_some w w' rand reverse h
    exact ⟨w1, hs, by rw [hw], by rw [hw], by rw [hw]⟩

theorem scheduling_rule_witness :
    ((WaterTorture.mk [⟨0, 0, 0⟩, ⟨0, 0, 0⟩]
        [droplet.mk_default, droplet.mk_default, droplet.mk_default, droplet.mk_default]
        3 0 4).droplet_pause = 0 ∧ droplet.mk_default.is_active = false) ∧
    ∃ c, droplet_colors[4]? = some c ∧
      (WaterTorture.mk [⟨0, 0, 0⟩, ⟨0, 0, 0⟩]
        [droplet.mk_default, droplet.mk_default, droplet.mk_default, droplet.mk_default]
        3 0 4).spawn 1234 =
        some (WaterTorture.mk [⟨0, 0, 0⟩, ⟨0, 0, 0⟩]
          ([droplet.mk_default, droplet.mk_default, droplet.mk_default,
            droplet.mk_default].set 3 (droplet.mk c 0 0 5 swelling))
          ((3 + 1) % 4) (100 + 1234 % 80) ((4 + 1) % 5)) ∧
      100 ≤ 100 + 1234 % 80 ∧ 100 + 1234 % 80 ≤ 179 :=
  ⟨by decide,
    (scheduling_rule (WaterTorture.mk [⟨0, 0, 0⟩, ⟨0, 0, 0⟩]
      [droplet.mk_default, droplet.mk_default, droplet.mk_default, droplet.mk_default]
      3 0 4) 1234 droplet.mk_default (by decide) (by decide) (by decide) rfl).2.1 rfl rfl⟩

theorem draw_inactive (d : droplet) (leds : List rgb) (max_pos : Nat) (reverse : Bool)
    (h : d.state = inactive) : d.draw leds max_pos reverse = some leds := by
  simp [droplet.draw, h]

theorem is_active_eq_false_iff (d : droplet) : d.is_active = false ↔ d.state = inactive := by
  simp [droplet.is_active]

/-- C14: for an inactive droplet `step(leds, ledcount, reverse)` returns the droplet
with all fields unchanged and the buffer with every cell unchanged (so do
`step(maxpos)` and `draw` on their own), and `is_active()` is false exactly in the
inactive state. -/
theorem inactive_is_inert (d : droplet) (leds : List rgb) (ledcount : Nat) (reverse : Bool)
    (h : d.state = inactive) :
    d.step_draw leds ledcount reverse = some (d, leds) ∧
    d.step ledcount = d ∧ d.draw leds ledcount reverse = some leds ∧
    d.is_active = false ∧
    (∀ e : droplet, e.is_active = false ↔ e.state = inactive) :=
  ⟨step_draw_inactive d leds ledcount reverse h, step_of_inactive d ledcount h,
    draw_inactive d leds ledcount reverse h, (is_active_eq_false_iff d).mpr h,
    is_active_eq_false_iff⟩

theorem inactive_is_inert_witness :
    droplet.mk_default.state = inactive ∧
    (droplet.mk_default.step_draw [⟨1, 2, 3⟩, ⟨4, 5, 6⟩] 2 true =
        some (droplet.mk_default, [⟨1, 2, 3⟩, ⟨4, 5, 6⟩]) ∧
      droplet.mk_default.step 2 = droplet.mk_default ∧
      droplet.mk_default.draw [⟨1, 2, 3⟩, ⟨4, 5, 6⟩] 2 true = some [⟨1, 2, 3⟩, ⟨4, 5, 6⟩] ∧
      droplet.mk_default.is_active = false ∧
      (∀ e : droplet, e.is_active = false ↔ e.state = inactive)) :=
  ⟨rfl, inactive_is_inert droplet.mk_default [⟨1, 2, 3⟩, ⟨4, 5, 6⟩] 2 true rfl⟩

theorem animate_idle (w : WaterTorture) (rand : Nat) (reverse : Bool)
    (hlen : w.droplets.length = droplet_count)
    (hin : ∀ d ∈ w.droplets, d.state = inactive) (hp : 0 < w.droplet_pause) :
    w.animate rand reverse =
      some { w with
        droplet_pause := to_u8 ((w.droplet_pause : Int) - 1)
        leds := List.replicate w.leds.length ⟨0, 0, 0⟩ } := by
  unfold WaterTorture.animate WaterTorture.spawn
  rw [if_pos (by omega)]
  simp only [Option.bind_eq_bind, Option.some_bind]
  rw [step_all_inactive _ _ _ _ _ _ (by rw [hlen]; simp)
    (fun i hi _ => hin _ (List.getElem_mem hi))]
  rfl

/-- C15: if all droplets of the pool are inactive and `droplet_pause > 0`, `animate`
returns with every cell of the buffer set to zero, whatever the buffer held
before, and leaves the droplets as they are; calling `animate` again under
the same condition yields the same all-zero buffer. -/
theorem frame_clear (w : WaterTorture) (rand : Nat) (reverse : Bool)
    (hlen : w.droplets.length = droplet_count)
    (hin : ∀ d ∈ w.droplets, d.state = inactive) (hp : 0 < w.droplet_pause) :
    ∃ w', w.animate rand reverse = some w' ∧
      w'.leds = List.replicate w.leds.length ⟨0, 0, 0⟩ ∧
      w'.leds.length = w.leds.length ∧
      (∀ c ∈ w'.leds, c.red = 0 ∧ c.green = 0 ∧ c.blue = 0) ∧
      w'.droplets = w.droplets ∧
      (∀ (rand2 : Nat) (reverse2 : Bool), 0 < w'.droplet_pause →
        ∃ w'', w'.animate rand2 reverse2 = some w'' ∧ w''.leds = w'.leds) := by
  refine ⟨_, animate_idle w rand reverse hlen hin hp, rfl, by simp, ?_, rfl, ?_⟩
  · intro c hc
    rw [List.eq_of_mem_replicate hc]
    exact ⟨rfl, rfl, rfl⟩
  · intro rand2 reverse2 hp2
    refine ⟨_, animate_idle _ rand2 reverse2 hlen hin hp2, ?_⟩
    simp

theorem frame_clear_witness :
    ((WaterTorture.mk [⟨9, 9, 9⟩, ⟨200, 0, 7⟩]
        [droplet.mk_default, droplet.mk_default, droplet.mk_default, droplet.mk_default]
        2 5 3).droplets.length = droplet_count ∧
      (∀ d ∈ (WaterTorture.mk [⟨9, 9, 9⟩, ⟨200, 0, 7⟩]
        [droplet.mk_default, droplet.mk_default, droplet.mk_default, droplet.mk_default]
        2 5 3).droplets, d.state = inactive) ∧
      0 < (WaterTorture.mk [⟨9, 9, 9⟩, ⟨200, 0, 7⟩]
        [droplet.mk_default, droplet.mk_default, droplet.mk_default, droplet.mk_default]
        2 5 3).droplet_pause) ∧
    ∃ w', (WaterTorture.mk [⟨9, 9, 9⟩, ⟨200, 0, 7⟩]
        [droplet.mk_default, droplet.mk_default, droplet.mk_default, droplet.mk_default]
        2 5 3).animate 42 false = some w' ∧
      w'.leds = List.replicate 2 ⟨0, 0, 0⟩ :=
  ⟨⟨rfl, by decide, by decide⟩,
    (frame_clear (WaterTorture.mk [⟨9, 9, 9⟩, ⟨200, 0, 7⟩]
      [droplet.mk_default, droplet.mk_default, droplet.mk_default, droplet.mk_default]
      2 5 3) 42 false rfl (by decide) (by decide)).imp (fun _ h => ⟨h.1, h.2.1⟩)⟩

/-! ### Rendering against the reference (C16, C17) and scaling (C19) -/

theorem draw_ops_forward (d : droplet) (max_pos : Nat)
    (hs : d.state = falling ∨ d.state = bouncing) (hm : max_pos ≤ 255)
    (hpos : d.position ≤ max_pos * 256) :
    d.draw_ops max_pos false =
      [(d.position / 256, scale d.color (256 - d.position % 256))]
        ++ (if d.position % 256 ≠ 0 then
              [(d.position / 256 + 1, scale d.color (d.position % 256))] else [])
        ++ (if d.state = bouncing then [(max_pos, d.color)] else []) := by
  have h8 := position8_eq d (by omega)
  have hr := remainder_eq d
  have hp : d.draw_pos max_pos false = d.position / 256 := by
    simp only [droplet.draw_pos, h8, Bool.false_eq_true, if_false]
  have hl : draw_last max_pos false = max_pos := by simp [draw_last]
  have ha : to_u16 (256 - ((d.position % 256 : Nat) : Int)) = 256 - d.position % 256 := by
    simp only [to_u16]; omega
  unfold droplet.draw_ops
  rw [if_pos hs, hr, hp, hl, ha]
  by_cases hrem : d.position % 256 = 0
  · simp only [hrem, ne_eq, not_true_eq_false, if_false]
  · have hp1 : d.draw_pos1 max_pos false = d.position / 256 + 1 := by
      simp only [droplet.draw_pos1, droplet.draw_pos, h8, to_u8, Bool.false_eq_true, if_false]
      omega
    simp only [hrem, ne_eq, not_false_eq_true, if_true, hp1]

theorem ops_sum_forward (d : droplet) (max_pos i : Nat) (ch : rgb → Nat)
    (hsc : ∀ (c : rgb) (a : Nat), ch (scale c a) = mult (ch c) a)
    (hs : d.state = falling ∨ d.state = bouncing) (hm : max_pos ≤ 255)
    (hpos : d.position ≤ max_pos * 256) :
    ops_sum (d.draw_ops max_pos false) i ch =
      (if i = d.position / 256 then mult (ch d.color) (256 - d.position % 256) else 0) +
      (if i = d.position / 256 + 1 ∧ d.position % 256 ≠ 0 then
        mult (ch d.color) (d.position % 256) else 0) +
      (if i = max_pos ∧ d.state = bouncing then ch d.color else 0) := by
  rw [draw_ops_forward d max_pos hs hm hpos, ops_sum_append, ops_sum_append, ops_sum_cons,
    ops_sum_nil, hsc]
  have e1 : (if (d.position / 256, scale d.color (256 - d.position % 256)).1 = i then
      mult (ch d.color) (256 - d.position % 256) else 0) =
      (if i = d.position / 256 then mult (ch d.color) (256 - d.position % 256) else 0) := by
    simp only [eq_comm]
  have e2 : ops_sum (if d.position % 256 ≠ 0 then
      [(d.position / 256 + 1, scale d.color (d.position % 256))] else []) i ch =
      (if i = d.position / 256 + 1 ∧ d.position % 256 ≠ 0 then
        mult (ch d.color) (d.position % 256) else 0) := by
    by_cases hrem : d.position % 256 = 0
    · simp [hrem, ops_sum_nil]
    · by_cases hi : i = d.position / 256 + 1
      · simp [hrem, hi, ops_sum_cons, ops_sum_nil, hsc]
      · simp [hrem, hi, Ne.symm hi, ops_sum_cons, ops_sum_nil]
  have e3 : ops_sum (if d.state = bouncing then [(max_pos, d.color)] else []) i ch =
      (if i = max_pos ∧ d.state = bouncing then ch d.color else 0) := by
    by_cases hbo : d.state = bouncing
    · by_cases hi : i = max_pos
      · simp [hbo, hi, ops_sum_cons, ops_sum_nil]
      · simp [hbo, hi, Ne.symm hi, ops_sum_cons, ops_sum_nil]
    · simp [hbo, ops_sum_nil]
  rw [e1, e2, e3]
  omega

theorem smear_channel_eq (d : droplet) (max_pos i : Nat) (ch : rgb → Nat)
    (hsc : ∀ (c : rgb) (a : Nat), ch (scale c a) = mult (ch c) a)
    (hwf : ch d.color ≤ 255)
    (hs : d.state = falling ∨ d.state = bouncing) (hm : max_pos ≤ 255)
    (hpos : d.position ≤ max_pos * 256) (cell : rgb) (hx : ch cell ≤ 255) :
    min 255 (ch cell + ops_sum (d.draw_ops max_pos false) i ch) =
      smear_channel d max_pos i ch cell := by
  rw [ops_sum_forward d max_pos i ch hsc hs hm hpos]
  have hm1 : mult (ch d.color) (256 - d.position % 256) =
      ch d.color * (256 - d.position % 256) / 256 := mult_eq_div _ _ hwf (by omega)
  have hm2 : mult (ch d.color) (d.position % 256) = ch d.color * (d.position % 256) / 256 :=
    mult_eq_div _ _ hwf (by omega)
  unfold smear_channel sat_add
  simp only [Nat.shiftRight_eq_div_pow, ← hm1, ← hm2]
  have p8 : (2 : Nat) ^ 8 = 256 := by norm_num
  rw [p8]
  generalize mult (ch d.color) (256 - d.position % 256) = A
  generalize mult (ch d.color) (d.position % 256) = B
  split_ifs <;> omega

theorem apply_ops_cells (f : Nat → rgb → rgb) (ops : List (Nat × rgb)) (leds : List rgb)
    (hl : leds_wf leds) (hops : ∀ op ∈ ops, op.2.wf)
    (hidx : ∀ op ∈ ops, op.1 < leds.length)
    (hf : ∀ (i : Nat) (cell : rgb), cell.wf →
      (f i cell).red = min 255 (cell.red + ops_sum ops i rgb.red) ∧
      (f i cell).green = min 255 (cell.green + ops_sum ops i rgb.green) ∧
      (f i cell).blue = min 255 (cell.blue + ops_sum ops i rgb.blue)) :
    ∃ l, apply_ops leds ops = some l ∧ l.length = leds.length ∧
      ∀ (i : Nat) (cell : rgb), leds[i]? = some cell → l[i]? = some (f i cell) := by
  obtain ⟨l, hl1, hlen⟩ := apply_ops_some ops leds hidx
  refine ⟨l, hl1, hlen, ?_⟩
  intro i cell h0
  obtain ⟨c, hc, hr⟩ := apply_ops_channel rgb.red (fun _ _ => rfl) (fun _ h => h.1)
    ops leds l hl hops hl1 i _ h0
  obtain ⟨cg, hcg, hg⟩ := apply_ops_channel rgb.green (fun _ _ => rfl) (fun _ h => h.2.1)
    ops leds l hl hops hl1 i _ h0
  obtain ⟨cb, hcb, hb⟩ := apply_ops_channel rgb.blue (fun _ _ => rfl) (fun _ h => h.2.2)
    ops leds l hl hops hl1 i _ h0
  rw [hc] at hcg hcb
  cases hcg; cases hcb
  rw [hc]
  obtain ⟨f1, f2, f3⟩ := hf i cell (hl cell (List.getElem?_mem h0))
  congr 1
  cases c
  cases hfi : f i cell
  simp only [hfi] at f1 f2 f3
  simp only at hr hg hb
  simp only [rgb.mk.injEq]
  omega

/-- C16: for a falling or bouncing droplet with `position ≤ max_pos << 8`, drawn
with `reverse = false` into a buffer that contains cell `max_pos`, `draw` succeeds
and every cell of the result is the cell of the reference smear: saturating
addition of `floor(c*(256-frac)/256)` at `index = position >> 8`, of
`floor(c*frac/256)` at `index + 1` only if `frac = position mod 256` is not 0, of the
full colour at `max_pos` exactly when bouncing, and no change elsewhere. -/
theorem draw_is_reference_smear (d : droplet) (leds : List rgb) (max_pos : Nat)
    (hs : d.state = falling ∨ d.state = bouncing) (hm : max_pos ≤ 255)
    (hlen : max_pos < leds.length) (hpos : d.position ≤ max_pos <<< 8)
    (hc : d.color.wf) (hl : leds_wf leds) :
    ∃ l, d.draw leds max_pos false = some l ∧ l.length = leds.length ∧
      ∀ (i : Nat) (cell : rgb), leds[i]? = some cell →
        l[i]? = some (smear_cell d max_pos i cell) := by
  rw [Nat.shiftLeft_eq] at hpos
  have hp : d.position ≤ max_pos * 256 := by simpa using hpos
  rw [draw_eq_apply_ops]
  have hidx := (draw_ops_index_lt d max_pos false hm (fun _ => hp)).2.2.2
  apply apply_ops_cells (smear_cell d max_pos) _ leds hl (draw_ops_wf d max_pos false hc)
    (fun op hop => by have := hidx op hop; omega)
  intro i cell hcell
  exact ⟨(smear_channel_eq d max_pos i rgb.red (fun _ _ => rfl) hc.1 hs hm hp cell
      hcell.1).symm,
    (smear_channel_eq d max_pos i rgb.green (fun _ _ => rfl) hc.2.1 hs hm hp cell
      hcell.2.1).symm,
    (smear_channel_eq d max_pos i rgb.blue (fun _ _ => rfl) hc.2.2 hs hm hp cell
      hcell.2.2).symm⟩

theorem draw_is_reference_smear_witness :
    (((droplet.mk ⟨255, 128, 9⟩ 300 10 5 bouncing).state = falling ∨
        (droplet.mk ⟨255, 128, 9⟩ 300 10 5 bouncing).state = bouncing) ∧
      (2 : Nat) ≤ 255 ∧ 2 < [(⟨0, 0, 0⟩ : rgb), ⟨200, 100, 3⟩, ⟨250, 5, 6⟩].length ∧
      (droplet.mk ⟨255, 128, 9⟩ 300 10 5 bouncing).position ≤ 2 <<< 8 ∧
      (droplet.mk ⟨255, 128, 9⟩ 300 10 5 bouncing).color.wf ∧
      leds_wf [⟨0, 0, 0⟩, ⟨200, 100, 3⟩, ⟨250, 5, 6⟩]) ∧
    ∃ l, (droplet.mk ⟨255, 128, 9⟩ 300 10 5 bouncing).draw
        [⟨0, 0, 0⟩, ⟨200, 100, 3⟩, ⟨250, 5, 6⟩] 2 false = some l ∧
      l.length = [(⟨0, 0, 0⟩ : rgb), ⟨200, 100, 3⟩, ⟨250, 5, 6⟩].length ∧
      ∀ (i : Nat) (cell : rgb), [(⟨0, 0, 0⟩ : rgb), ⟨200, 100, 3⟩, ⟨250, 5, 6⟩][i]? = some cell →
        l[i]? = some (smear_cell (droplet.mk ⟨255, 128, 9⟩ 300 10 5 bouncing) 2 i cell) :=
  ⟨⟨by decide, by decide, by decide, by decide, by decide, by unfold leds_wf; decide⟩,
    draw_is_reference_smear (droplet.mk ⟨255, 128, 9⟩ 300 10 5 bouncing)
      [⟨0, 0, 0⟩, ⟨200, 100, 3⟩, ⟨250, 5, 6⟩] 2 (by decide) (by decide) (by decide)
      (by decide) (by decide) (by unfold leds_wf; decide)⟩

theorem never_swelling_again (d : droplet) (maxpos a : Nat)
    (h : (d.steps maxpos a).state ≠ swelling) (j : Nat) :
    (d.steps maxpos (a + j)).state ≠ swelling := by
  induction j with
  | zero => exact h
  | succ j ih =>
    show ((d.steps maxpos (a + j)).step maxpos).state ≠ swelling
    rcases step_state_cases (d.steps maxpos (a + j)) maxpos with h1 | h1 | h1 | h1
    · rw [h1]; exact ih
    · rw [h1.2]; decide
    · rw [h1.2]; decide
    · rw [h1.2]; decide

theorem swelling_end (c : rgb) (gravity maxpos : Nat) (hb : c.blue ≤ 255) :
    ((droplet.mk_active c gravity).steps maxpos (if 10 < c.blue then c.blue - 10 else 1)).state =
        falling ∧
      ((droplet.mk_active c gravity).steps maxpos
        (if 10 < c.blue then c.blue - 10 else 1)).position = 0 ∧
      ((droplet.mk_active c gravity).steps maxpos
        (if 10 < c.blue then c.blue - 10 else 1)).speed = 0 ∧
      ((droplet.mk_active c gravity).steps maxpos
        (if 10 < c.blue then c.blue - 10 else 1)).gravity = gravity ∧
      ((droplet.mk_active c gravity).steps maxpos
        (if 10 < c.blue then c.blue - 10 else 1)).color = c := by
  by_cases h10 : 10 < c.blue
  · rw [if_pos h10]
    have hlast := swelling_steps c gravity maxpos hb (c.blue - 11) (by omega)
    have hp : to_u16 (((c.blue - 11 : Nat) : Int) + 1) = c.blue - 10 := by
      simp only [to_u16]; omega
    have e : c.blue - 10 = (c.blue - 11) + 1 := by omega
    rw [e]
    show (((droplet.mk_active c gravity).steps maxpos (c.blue - 11)).step maxpos).state = _ ∧
      (((droplet.mk_active c gravity).steps maxpos (c.blue - 11)).step maxpos).position = _ ∧
      (((droplet.mk_active c gravity).steps maxpos (c.blue - 11)).step maxpos).speed = _ ∧
      (((droplet.mk_active c gravity).steps maxpos (c.blue - 11)).step maxpos).gravity = _ ∧
      (((droplet.mk_active c gravity).steps maxpos (c.blue - 11)).step maxpos).color = _
    rw [hlast]
    unfold droplet.step
    simp only [reduceCtorEq, false_or, if_false, if_true, hp]
    rw [if_pos (Or.inr (by omega))]
    exact ⟨rfl, rfl, rfl, rfl, rfl⟩
  · rw [if_neg h10]
    show ((droplet.mk_active c gravity).step maxpos).state = _ ∧
      ((droplet.mk_active c gravity).step maxpos).position = _ ∧
      ((droplet.mk_active c gravity).step maxpos).speed = _ ∧
      ((droplet.mk_active c gravity).step maxpos).gravity = _ ∧
      ((droplet.mk_active c gravity).step maxpos).color = _
    unfold droplet.step droplet.mk_active
    simp only [reduceCtorEq, false_or, if_false, if_true]
    rw [if_pos (Or.inl (by omega))]
    exact ⟨rfl, rfl, rfl, rfl, rfl⟩

theorem swelling_only_early (c : rgb) (gravity maxpos : Nat) (hb : c.blue ≤ 255) (j : Nat)
    (hs : ((droplet.mk_active c gravity).steps maxpos j).state = swelling) :
    ((droplet.mk_active c gravity).steps maxpos j).position = j ∧
      (j = 0 ∨ j + 10 < c.blue) ∧ j ≤ 244 := by
  have hd := swelling_end c gravity maxpos hb
  by_cases h0 : j = 0
  · subst h0
    exact ⟨rfl, Or.inl rfl, by omega⟩
  by_cases hj : j + 10 < c.blue
  · rw [swelling_steps c gravity maxpos hb j hj]
    exact ⟨rfl, Or.inr hj, by omega⟩
  · exfalso
    have hns : ((droplet.mk_active c gravity).steps maxpos
        (if 10 < c.blue then c.blue - 10 else 1)).state ≠ swelling := by
      rw [hd.1]; decide
    have := never_swelling_again _ maxpos _ hns (j - (if 10 < c.blue then c.blue - 10 else 1))
    have e : (if 10 < c.blue then c.blue - 10 else 1) +
        (j - (if 10 < c.blue then c.blue - 10 else 1)) = j := by
      split_ifs <;> omega
    rw [e] at this
    exact this hs

theorem swell_cell_channels (d : droplet) (max_pos : Nat) (reverse : Bool)
    (hs : d.state = swelling) (hp : d.position ≤ 255) (hc : d.color.wf) (i : Nat) (cell : rgb)
    (hcell : cell.wf) :
    (swell_cell d max_pos reverse i cell).red =
        min 255 (cell.red + ops_sum (d.draw_ops max_pos reverse) i rgb.red) ∧
      (swell_cell d max_pos reverse i cell).green =
        min 255 (cell.green + ops_sum (d.draw_ops max_pos reverse) i rgb.green) ∧
      (swell_cell d max_pos reverse i cell).blue =
        min 255 (cell.blue + ops_sum (d.draw_ops max_pos reverse) i rgb.blue) := by
  have hops : d.draw_ops max_pos reverse =
      [(if reverse then max_pos else 0, scale d.color d.position)] := by
    unfold droplet.draw_ops draw_first
    simp [hs]
  have h1 := mult_eq_div d.color.red d.position hc.1 (by omega)
  have h2 := mult_eq_div d.color.green d.position hc.2.1 (by omega)
  have h3 := mult_eq_div d.color.blue d.position hc.2.2 (by omega)
  obtain ⟨c1, c2, c3⟩ := hcell
  rw [hops]
  simp only [ops_sum_cons, ops_sum_nil, scale, swell_cell, sat_add, ← h1, ← h2, ← h3]
  by_cases hi : i = (if reverse = true then max_pos else 0)
  · simp only [hi, if_true]
    omega
  · simp only [hi, Ne.symm hi, if_false]
    omega

/-- C17, as amended: for a swelling droplet with `position` in 0..255, `draw` changes
only the emission endpoint cell (index 0, or `max_pos` when reversed), adding
`floor(c * position / 256)` per channel with saturation at 255, and leaves every
other cell unchanged. Over the swelling phase of a droplet spawned with blue
channel `b` the position is the number of steps taken, so the factor grows by
1/256 per step from zero, but only as far as `(b - 11)/256`, at most 244/256: the
droplet is swelling after `j` steps exactly for `j = 0` or `j + 10 < b`. -/
theorem swelling_render (d : droplet) (leds : List rgb) (max_pos : Nat) (reverse : Bool)
    (hs : d.state = swelling) (hp : d.position ≤ 255)
    (hlen : (if reverse then max_pos else 0) < leds.length)
    (hc : d.color.wf) (hl : leds_wf leds) :
    (∃ l, d.draw leds max_pos reverse = some l ∧ l.length = leds.length ∧
      ∀ (i : Nat) (cell : rgb), leds[i]? = some cell →
        l[i]? = some (swell_cell d max_pos reverse i cell)) ∧
    (∀ (c : rgb) (gravity maxpos j : Nat), c.blue ≤ 255 →
      (((droplet.mk_active c gravity).steps maxpos j).state = swelling ↔
        (j = 0 ∨ j + 10 < c.blue)) ∧
      (((droplet.mk_active c gravity).steps maxpos j).state = swelling →
        ((droplet.mk_active c gravity).steps maxpos j).position = j ∧ j ≤ 244)) := by
  constructor
  · rw [draw_eq_apply_ops]
    apply apply_ops_cells (swell_cell d max_pos reverse) _ leds hl
      (draw_ops_wf d max_pos reverse hc)
    · intro op hop
      have hops : d.draw_ops max_pos reverse =
          [(if reverse then max_pos else 0, scale d.color d.position)] := by
        unfold droplet.draw_ops draw_first
        simp [hs]
      rw [hops, List.mem_singleton] at hop
      rw [hop]
      exact hlen
    · intro i cell hcell
      exact swell_cell_channels d max_pos reverse hs hp hc i cell hcell
  · intro c gravity maxpos j hb
    constructor
    · constructor
      · intro h
        exact (swelling_only_early c gravity maxpos hb j h).2.1
      · rintro (h | h)
        · subst h; rfl
        · rw [swelling_steps c gravity maxpos hb j h]
    · intro h
      exact ⟨(swelling_only_early c gravity maxpos hb j h).1,
        (swelling_only_early c gravity maxpos hb j h).2.2⟩

theorem swelling_render_witness :
    ((droplet.mk ⟨255, 128, 50⟩ 30 0 5 swelling).state = swelling ∧
      (droplet.mk ⟨255, 128, 50⟩ 30 0 5 swelling).position ≤ 255 ∧
      (if true then 2 else 0) < [(⟨0, 0, 0⟩ : rgb), ⟨200, 100, 3⟩, ⟨250, 5, 6⟩].length ∧
      (droplet.mk ⟨255, 128, 50⟩ 30 0 5 swelling).color.wf ∧
      leds_wf [⟨0, 0, 0⟩, ⟨200, 100, 3⟩, ⟨250, 5, 6⟩]) ∧
    ∃ l, (droplet.mk ⟨255, 128, 50⟩ 30 0 5 swelling).draw
        [⟨0, 0, 0⟩, ⟨200, 100, 3⟩, ⟨250, 5, 6⟩] 2 true = some l ∧
      l.length = [(⟨0, 0, 0⟩ : rgb), ⟨200, 100, 3⟩, ⟨250, 5, 6⟩].length ∧
      ∀ (i : Nat) (cell : rgb), [(⟨0, 0, 0⟩ : rgb), ⟨200, 100, 3⟩, ⟨250, 5, 6⟩][i]? = some cell →
        l[i]? = some (swell_cell (droplet.mk ⟨255, 128, 50⟩ 30 0 5 swelling) 2 true i cell) :=
  ⟨⟨by decide, by decide, by decide, by decide, by unfold leds_wf; decide⟩,
    (swelling_render (droplet.mk ⟨255, 128, 50⟩ 30 0 5 swelling)
      [⟨0, 0, 0⟩, ⟨200, 100, 3⟩, ⟨250, 5, 6⟩] 2 true (by decide) (by decide) (by decide)
      (by decide) (by unfold leds_wf; decide)).1⟩

/-- C17 fails in its last clause: a droplet spawned with blue channel 255, the
largest value, is swelling at position 244 after 244 steps and falling after 245;
it is never swelling at a position of 245 or more, so the brightness factor stops
at 244/256 and a full channel of 255 contributes at most 243. -/
theorem swelling_never_full :
    ((droplet.mk_active ⟨255, 255, 255⟩ 5).steps 9 244).state = swelling ∧
    ((droplet.mk_active ⟨255, 255, 255⟩ 5).steps 9 244).position = 244 ∧
    ((droplet.mk_active ⟨255, 255, 255⟩ 5).steps 9 245).state = falling ∧
    mult 255 244 = 243 ∧
    ¬ ∃ j, ((droplet.mk_active ⟨255, 255, 255⟩ 5).steps 9 j).state = swelling ∧
      245 ≤ ((droplet.mk_active ⟨255, 255, 255⟩ 5).steps 9 j).position := by
  have h244 := swelling_steps ⟨255, 255, 255⟩ 5 9 (by decide) 244 (by decide)
  have hd := swelling_end ⟨255, 255, 255⟩ 5 9 (by decide)
  refine ⟨by rw [h244], by rw [h244], hd.1, by decide, ?_⟩
  rintro ⟨j, hs, hp⟩
  have := swelling_only_early ⟨255, 255, 255⟩ 5 9 (by decide) j hs
  omega

theorem mult_le (v m : Nat) (hv : v ≤ 255) (hm : m ≤ 256) : mult v m ≤ v := by
  rw [mult_eq_div v m hv hm]
  apply Nat.div_le_of_le_mul
  calc v * m ≤ v * 256 := Nat.mul_le_mul_left v hm
    _ = 256 * v := Nat.mul_comm v 256

theorem step_color_cases (d : droplet) (maxpos : Nat) :
    (d.step maxpos).color = d.color ∨ (d.step maxpos).color = scale d.color 10 := by
  unfold droplet.step
  cases hst : d.state <;> simp <;> (try split_ifs) <;> simp

/-- C19: for an 8-bit value `v` and a multiplier `m ≤ 256`,
`mult(v, m) = floor(v*m/256) ≤ v`, with `mult(v, 256) = v` and `mult(v, 0) = 0`; and
for every droplet reached from a pool spawn by `step`, the amplitudes that `draw`
passes to `scale` (`256 - remainder`, `remainder`, and `position` while swelling)
are at most 256, as is the factor 10 that `step` passes at the collision (and the
declared `collision_scaling`). -/
theorem scaling_never_brightens :
    (∀ v m : Nat, v ≤ 255 → m ≤ 256 → mult v m = v * m / 256 ∧ mult v m ≤ v) ∧
    (∀ v : Nat, v ≤ 255 → mult v 256 = v ∧ mult v 0 = 0) ∧
    (∀ c ∈ droplet_colors, ∀ maxpos k : Nat,
      to_u16 (256 - (((droplet.mk_active c 5).steps maxpos k).remainder : Int)) ≤ 256 ∧
      ((droplet.mk_active c 5).steps maxpos k).remainder ≤ 256 ∧
      (((droplet.mk_active c 5).steps maxpos k).state = swelling →
        ((droplet.mk_active c 5).steps maxpos k).position ≤ 256)) ∧
    (∀ (d : droplet) (maxpos : Nat),
      (d.step maxpos).color = d.color ∨ (d.step maxpos).color = scale d.color 10) ∧
    10 ≤ 256 ∧ collision_scaling ≤ 256 := by
  refine ⟨fun v m hv hm => ⟨mult_eq_div v m hv hm, mult_le v m hv hm⟩, ?_, ?_,
    step_color_cases, by decide, by decide⟩
  · intro v hv
    rw [mult_eq_div v 256 hv (by omega), mult_eq_div v 0 hv (by omega)]
    omega
  · intro c hc maxpos k
    have hr := remainder_eq ((droplet.mk_active c 5).steps maxpos k)
    refine ⟨?_, ?_, ?_⟩
    · rw [hr]; simp only [to_u16]; omega
    · rw [hr]; omega
    · intro hs
      have := swelling_only_early c 5 maxpos (droplet_colors_wf c hc).2.2 k hs
      omega

theorem scaling_never_brightens_witness :
    ((200 : Nat) ≤ 255 ∧ (100 : Nat) ≤ 256) ∧ (mult 200 100 = 200 * 100 / 256 ∧ mult 200 100 ≤ 200) :=
  ⟨by decide, scaling_never_brightens.1 200 100 (by decide) (by decide)⟩

/-! ### The bounce phase, termination and the sign of the speed (C13, C18) -/

theorem bounce_inv_speed (M : Nat) (d : droplet) (h : bounce_inv M d) :
    -221 ≤ d.speed ∧ d.speed ≤ 226 := by
  obtain ⟨-, hp, -, h2⟩ := h
  have hpM : (0 : Int) ≤ (M : Int) - (d.position : Int) := by omega
  constructor
  · by_contra hc
    have h1 : d.speed ≤ -222 := by omega
    nlinarith
  · by_contra hc
    have h1 : 227 ≤ d.speed := by omega
    nlinarith

theorem step_bouncing (d : droplet) (maxpos : Nat) (hs : d.state = bouncing) :
    d.step maxpos =
      if to_u16 ((d.position : Int) + d.speed) > to_u16 ((maxpos : Int) * 256) then
        { d with
          position := to_u16 ((d.position : Int) + d.speed)
          speed := to_i16 (d.speed + (d.gravity : Int))
          state := inactive }
      else
        { d with
          position := to_u16 ((d.position : Int) + d.speed)
          speed := to_i16 (d.speed + (d.gravity : Int)) } := by
  unfold droplet.step
  simp [hs]

theorem bounce_inv_step (maxpos : Nat) (hm : maxpos ≤ 254) (d : droplet)
    (hs : d.state = bouncing) (h : bounce_inv (maxpos * 256) d) :
    ((d.step maxpos).state = inactive ∧ 0 < (d.step maxpos).speed ∧
      (d.step maxpos).speed ≤ 231) ∨
    ((d.step maxpos).state = bouncing ∧ bounce_inv (maxpos * 256) (d.step maxpos) ∧
      bounce_measure (maxpos * 256) (d.step maxpos) < bounce_measure (maxpos * 256) d ∧
      (d.step maxpos).color = d.color) := by
  obtain ⟨hlo, hhi⟩ := bounce_inv_speed _ d h
  obtain ⟨hg, hp, h1, h2⟩ := h
  have hM : to_u16 ((maxpos : Int) * 256) = maxpos * 256 := by
    simp only [to_u16]; omega
  have hsq : (d.speed + 5) * (d.speed + 5) = d.speed * d.speed + 10 * d.speed + 25 := by ring
  have hpos : 0 < (d.position : Int) + d.speed := by
    nlinarith [sq_nonneg (2 * d.speed + 5)]
  have hp' : ((to_u16 ((d.position : Int) + d.speed) : Nat) : Int) =
      (d.position : Int) + d.speed := by
    simp only [to_u16]; omega
  have hv : to_i16 (d.speed + (d.gravity : Int)) = d.speed + 5 := by
    simp only [to_i16, hg]; push_cast; omega
  rw [step_bouncing d maxpos hs, hM, hv]
  by_cases hex : to_u16 ((d.position : Int) + d.speed) > maxpos * 256
  · left
    rw [if_pos hex]
    refine ⟨rfl, ?_, ?_⟩
    · show 0 < d.speed + 5
      omega
    · show d.speed + 5 ≤ 231
      omega
  · right
    rw [if_neg hex]
    refine ⟨hs, ⟨hg, by simpa using hex, ?_, ?_⟩, ?_, rfl⟩
    · show (d.speed + 5) * (d.speed + 5) - 5 * (d.speed + 5) + 7 ≤
        10 * ((to_u16 ((d.position : Int) + d.speed) : Nat) : Int)
      rw [hp', hsq]; omega
    · show (d.speed + 5) * (d.speed + 5) - 5 * (d.speed + 5) +
        10 * (((maxpos * 256 : Nat) : Int) - ((to_u16 ((d.position : Int) + d.speed) : Nat) : Int))
        ≤ 50000
      rw [hp', hsq]; push_cast at h2 ⊢; omega
    · unfold bounce_measure
      simp only
      split_ifs <;> omega

theorem steps_succ_left (d : droplet) (maxpos i : Nat) :
    d.steps maxpos (i + 1) = (d.step maxpos).steps maxpos i := by
  have h := steps_add d maxpos 1 i
  rw [Nat.add_comm] at h
  exact h

theorem steps_of_inactive (d : droplet) (maxpos : Nat) (h : d.state = inactive) (i : Nat) :
    d.steps maxpos i = d := by
  induction i with
  | zero => rfl
  | succ i ih =>
    show (d.steps maxpos i).step maxpos = d
    rw [ih, step_of_inactive d maxpos h]

theorem bounce_measure_pos (M : Nat) (d : droplet) (h : bounce_inv M d) :
    0 < bounce_measure M d := by
  obtain ⟨-, hp, -, -⟩ := h
  unfold bounce_measure
  split_ifs <;> omega

theorem bounce_terminates_aux (maxpos : Nat) (hm : maxpos ≤ 254) (n : Nat) :
    ∀ d : droplet, d.state = bouncing → bounce_inv (maxpos * 256) d →
      bounce_measure (maxpos * 256) d ≤ n →
      ∃ j, (∀ i, i ≤ j → (d.steps maxpos i).state = bouncing ∧
          bounce_inv (maxpos * 256) (d.steps maxpos i) ∧ (d.steps maxpos i).color = d.color) ∧
        (d.steps maxpos (j + 1)).state = inactive ∧ 0 < (d.steps maxpos (j + 1)).speed := by
  induction n with
  | zero =>
    intro d _ hinv hle
    have := bounce_measure_pos _ d hinv
    omega
  | succ n ih =>
    intro d hs hinv hle
    rcases bounce_inv_step maxpos hm d hs hinv with ⟨h1, h2, -⟩ | ⟨h1, h2, h3, h4⟩
    · refine ⟨0, ?_, h1, h2⟩
      intro i hi
      have : i = 0 := by omega
      subst this
      exact ⟨hs, hinv, rfl⟩
    · obtain ⟨j, hj, hend, hsp⟩ := ih (d.step maxpos) h1 h2 (by omega)
      refine ⟨j + 1, ?_, ?_, ?_⟩
      · intro i hi
        rcases Nat.eq_zero_or_pos i with h0 | h0
        · subst h0
          exact ⟨hs, hinv, rfl⟩
        · have e : i = (i - 1) + 1 := by omega
          rw [e, steps_succ_left]
          obtain ⟨a, b, c⟩ := hj (i - 1) (by omega)
          exact ⟨a, b, by rw [c, h4]⟩
      · rw [steps_succ_left]; exact hend
      · rw [steps_succ_left]; exact hsp

theorem bounce_terminates (maxpos : Nat) (hm : maxpos ≤ 254) (d : droplet)
    (hs : d.state = bouncing) (hinv : bounce_inv (maxpos * 256) d) :
    ∃ j, (∀ i, i ≤ j → (d.steps maxpos i).state = bouncing ∧
        bounce_inv (maxpos * 256) (d.steps maxpos i) ∧ (d.steps maxpos i).color = d.color) ∧
      (d.steps maxpos (j + 1)).state = inactive ∧ 0 < (d.steps maxpos (j + 1)).speed :=
  bounce_terminates_aux maxpos hm _ d hs hinv le_rfl

theorem impact_energy_low (k u p M : Int) (h10 : 10 ≤ k) (hu0 : 0 ≤ u)
    (hu : 4 * u ≤ 5 * k + 5) (hk : 2 * p + 5 * k = 5 * (k * k)) (hle : p ≤ M) :
    (-u) * (-u) - 5 * (-u) + 7 ≤ 10 * (2 * M - (p + 5 * k)) := by
  have hu2 : u ≤ 2 * k := by omega
  have huu : u * u ≤ (2 * k) * (2 * k) := mul_le_mul hu2 hu2 hu0 (by omega)
  have hkk : 10 * k ≤ k * k := mul_le_mul h10 le_rfl (by omega) (by omega)
  have e1 : (-u) * (-u) = u * u := by ring
  have e2 : (2 * k) * (2 * k) = 4 * (k * k) := by ring
  rw [e1]
  rw [e2] at huu
  omega

theorem impact_energy_high (u x : Int) (hu0 : 0 ≤ u) (hu : u ≤ 202) (hx : x ≤ 805) :
    (-u) * (-u) - 5 * (-u) + 10 * x ≤ 50000 := by
  have huu : u * u ≤ 202 * 202 := mul_le_mul hu hu hu0 (by omega)
  have e1 : (-u) * (-u) = u * u := by ring
  rw [e1]
  omega

/-- The bounce of a pool droplet in free fall establishes the bounce invariant. -/
theorem bounce_inv_of_impact (maxpos k p : Nat) (c : rgb) (h1 : 1 ≤ maxpos)
    (hm : maxpos ≤ 254) (hk : 2 * p + 5 * k = 5 * k * k) (hle : p ≤ maxpos * 256)
    (hgt : maxpos * 256 < p + 5 * k) :
    (droplet.step (droplet.mk c p (5 * (k : Int)) 5 falling) maxpos).state = bouncing ∧
    bounce_inv (maxpos * 256) (droplet.step (droplet.mk c p (5 * (k : Int)) 5 falling) maxpos) ∧
    (droplet.step (droplet.mk c p (5 * (k : Int)) 5 falling) maxpos).color = scale c 10 := by
  have h161 := fall_count_le k p _ hk hle (by omega)
  have hvM := fall_speed_le k p _ hk hle (by omega)
  have hkk : 5 * k * k = 5 * (k * k) := Nat.mul_assoc 5 k k
  have hnw : p + 5 * k < 65536 := by
    have h161' : k * k ≤ 161 * k := Nat.mul_le_mul_right k h161
    omega
  have h10 : 10 ≤ k := by
    by_contra hlt
    have h9 : k ≤ 9 := by omega
    have : k * k ≤ 9 * k := Nat.mul_le_mul_right k h9
    omega
  have hM : to_u16 ((maxpos : Int) * 256) = maxpos * 256 := by
    simp only [to_u16]; omega
  have hp : to_u16 (((p : Nat) : Int) + 5 * (k : Int)) = p + 5 * k := by
    simp only [to_u16]; omega
  have hv : to_i16 (5 * (k : Int) + ((5 : Nat) : Int)) = 5 * (k : Int) + 5 := by
    simp only [to_i16]; push_cast; omega
  have hb := bounce_step (droplet.mk c p (5 * (k : Int)) 5 falling) maxpos rfl
    (by rw [hp, hM]; exact hgt)
  simp only [hp, hM, hv] at hb
  obtain ⟨b1, -, b3, b4, -, -, -, -⟩ := hb
  have b3' := b3 (by omega)
  rw [tdiv_neg_four _ (by omega)] at b4
  have hkI : 2 * (p : Int) + 5 * (k : Int) = 5 * ((k : Int) * (k : Int)) := by
    have := hk
    rw [hkk] at this
    exact_mod_cast this
  have hposI : ((droplet.step (droplet.mk c p (5 * (k : Int)) 5 falling) maxpos).position : Int)
      = 2 * ((maxpos : Int) * 256) - ((p : Int) + 5 * (k : Int)) := by omega
  refine ⟨b1, ⟨?_, by omega, ?_, ?_⟩, ?_⟩
  · rw [step_falling _ _ rfl, hp, hM, if_pos hgt]
  · rw [b4, hposI]
    exact impact_energy_low (k : Int) _ (p : Int) _ (by omega) (by omega) (by omega) hkI
      (by omega)
  · rw [b4]
    exact impact_energy_high _ _ (by omega) (by omega) (by push_cast; omega)
  · rw [step_falling _ _ rfl, hp, hM, if_pos hgt]

theorem first_impact (c : rgb) (maxpos : Nat) (hm : maxpos ≤ 254) :
    ∃ k : Nat,
      (∀ i, i ≤ k → (droplet.mk c 0 0 5 falling).steps maxpos i =
        droplet.mk c (fall_position i) (5 * (i : Int)) 5 falling) ∧
      fall_position k ≤ maxpos * 256 ∧ maxpos * 256 < fall_position k + 5 * k := by
  classical
  have hex := fall_exceeds (maxpos * 256)
  have hk : maxpos * 256 < fall_position (Nat.find hex + 1) := Nat.find_spec hex
  have hle : fall_position (Nat.find hex) ≤ maxpos * 256 := by
    rcases Nat.eq_zero_or_pos (Nat.find hex) with h0 | h0
    · rw [h0]; exact Nat.zero_le _
    · have := Nat.find_min hex (m := Nat.find hex - 1) (by omega)
      have e : Nat.find hex - 1 + 1 = Nat.find hex := by omega
      rw [e] at this
      omega
  refine ⟨Nat.find hex, ?_, hle, by simpa only [fall_position] using hk⟩
  intro i hi
  exact steps_falling c maxpos hm i (le_trans (fall_position_le_of_le i _ hi) hle)

theorem swelling_initial (c : rgb) (gravity maxpos : Nat) (hb : c.blue ≤ 255) (i : Nat)
    (hi : i < (if 10 < c.blue then c.blue - 10 else 1)) :
    (droplet.mk_active c gravity).steps maxpos i = droplet.mk c i 0 gravity swelling := by
  by_cases h0 : i = 0
  · subst h0; rfl
  · have h10 : 10 < c.blue := by
      by_contra hc
      rw [if_neg hc] at hi
      omega
    rw [if_pos h10] at hi
    exact swelling_steps c gravity maxpos hb i (by omega)

theorem steps_after_swelling (c : rgb) (gravity maxpos : Nat) (hb : c.blue ≤ 255) (t : Nat) :
    (droplet.mk_active c gravity).steps maxpos ((if 10 < c.blue then c.blue - 10 else 1) + t) =
      (droplet.mk c 0 0 gravity falling).steps maxpos t := by
  rw [steps_add]
  congr 1
  obtain ⟨h1, h2, h3, h4, h5⟩ := swelling_end c gravity maxpos hb
  generalize (droplet.mk_active c gravity).steps maxpos
    (if 10 < c.blue then c.blue - 10 else 1) = d at *
  cases d
  simp only at h1 h2 h3 h4 h5
  subst h1 h2 h3 h4 h5
  rfl

theorem one_led_steps (c : rgb) :
    (droplet.mk c 0 0 5 falling).steps 0 1 = droplet.mk c 0 5 5 falling ∧
    (droplet.mk c 0 0 5 falling).steps 0 2 = droplet.mk (scale c 10) 65531 (-2) 5 bouncing ∧
    (droplet.mk c 0 0 5 falling).steps 0 3 = droplet.mk (scale c 10) 65529 3 5 inactive := by
  have e0 : to_u16 (((0 : Nat) : Int) * 256) = 0 := by decide
  have s1 : (droplet.mk c 0 0 5 falling).step 0 = droplet.mk c 0 5 5 falling := by
    have e1 : to_u16 (((0 : Nat) : Int) + 0) = 0 := by decide
    have e2 : to_i16 ((0 : Int) + ((5 : Nat) : Int)) = 5 := by decide
    rw [step_falling _ _ rfl]
    simp only [e0, e1, e2, gt_iff_lt, lt_self_iff_false, if_false]
  have s2 : (droplet.mk c 0 5 5 falling).step 0 =
      droplet.mk (scale c 10) 65531 (-2) 5 bouncing := by
    have e1 : to_u16 (((0 : Nat) : Int) + 5) = 5 := by decide
    have e2 : to_i16 (Int.tdiv (-(to_i16 ((5 : Int) + ((5 : Nat) : Int)))) 4) = -2 := by decide
    have e3 : to_u16 (((0 : Nat) : Int) - (((5 : Nat) : Int) - ((0 : Nat) : Int))) = 65531 := by
      decide
    rw [step_falling _ _ rfl]
    simp only [e0, e1, e2, e3, gt_iff_lt, Nat.ofNat_pos, if_true]
  have s3 : (droplet.mk (scale c 10) 65531 (-2) 5 bouncing).step 0 =
      droplet.mk (scale c 10) 65529 3 5 inactive := by
    have e1 : to_u16 (((65531 : Nat) : Int) + (-2)) = 65529 := by decide
    have e2 : to_i16 ((-2 : Int) + ((5 : Nat) : Int)) = 3 := by decide
    rw [step_bouncing _ _ rfl]
    simp only [e0, e1, e2, gt_iff_lt, Nat.ofNat_pos, if_true]
  refine ⟨s1, ?_, ?_⟩
  · show ((droplet.mk c 0 0 5 falling).step 0).step 0 = _
    rw [s1, s2]
  · show (((droplet.mk c 0 0 5 falling).step 0).step 0).step 0 = _
    rw [s1, s2, s3]

theorem one_led_steps_late (c : rgb) (t : Nat) :
    (droplet.mk c 0 0 5 falling).steps 0 (3 + t) = droplet.mk (scale c 10) 65529 3 5 inactive := by
  rw [steps_add, (one_led_steps c).2.2]
  exact steps_of_inactive _ 0 rfl t

/-- C13: on a strip of `n` cells, `1 ≤ n ≤ 255`, a droplet created with a palette
colour and gravity 5 and advanced by `step(n-1)` is swelling for the first `a > 0`
steps, then falling until step `b`, then bouncing until step `e`, and inactive
from step `e` on for ever: it reaches the inactive state after finitely many
steps and there is no further bounce after the second impact. -/
theorem droplet_completes_lifecycle (n : Nat) (h1 : 1 ≤ n) (h255 : n ≤ 255) (c : rgb)
    (hc : c ∈ droplet_colors) :
    ∃ a b e : Nat, 0 < a ∧ a < b ∧ b < e ∧
      (∀ i, i < a → ((droplet.mk_active c 5).steps (n - 1) i).state = swelling) ∧
      (∀ i, a ≤ i → i < b → ((droplet.mk_active c 5).steps (n - 1) i).state = falling) ∧
      (∀ i, b ≤ i → i < e → ((droplet.mk_active c 5).steps (n - 1) i).state = bouncing) ∧
      (∀ i, e ≤ i → ((droplet.mk_active c 5).steps (n - 1) i).state = inactive) := by
  have hb : c.blue ≤ 255 := (droplet_colors_wf c hc).2.2
  have ha : 0 < (if 10 < c.blue then c.blue - 10 else 1) := by
    split_ifs <;> omega
  generalize hA : (if 10 < c.blue then c.blue - 10 else 1) = a at ha
  have hpre : ∀ i, i < a → ((droplet.mk_active c 5).steps (n - 1) i).state = swelling := by
    intro i hi
    rw [swelling_initial c 5 (n - 1) hb i (by rw [hA]; exact hi)]
  have hpost : ∀ t, (droplet.mk_active c 5).steps (n - 1) (a + t) =
      (droplet.mk c 0 0 5 falling).steps (n - 1) t := by
    intro t
    rw [← hA]
    exact steps_after_swelling c 5 (n - 1) hb t
  rcases Nat.eq_or_lt_of_le h1 with hn1 | hn2
  · -- a strip of one cell
    have hn0 : n - 1 = 0 := by omega
    rw [hn0] at hpre hpost ⊢
    obtain ⟨s1, s2, -⟩ := one_led_steps c
    refine ⟨a, a + 2, a + 3, ha, by omega, by omega, hpre, ?_, ?_, ?_⟩
    · intro i h1 h2
      have e : i = a + (i - a) := by omega
      rw [e, hpost]
      have : i - a = 0 ∨ i - a = 1 := by omega
      rcases this with h | h <;> rw [h]
      · rfl
      · rw [s1]
    · intro i h1 h2
      have e : i = a + 2 := by omega
      rw [e, hpost, s2]
    · intro i h1
      have e : i = a + (3 + (i - (a + 3))) := by omega
      rw [e, hpost, one_led_steps_late]
  · -- at least two cells
    obtain ⟨k, hfall, hle, hgt⟩ := first_impact c (n - 1) (by omega)
    obtain ⟨hB, hinv, -⟩ := bounce_inv_of_impact (n - 1) k (fall_position k) c (by omega)
      (by omega) (fall_position_eq k) hle hgt
    obtain ⟨j, hj, hend, -⟩ := bounce_terminates (n - 1) (by omega) _ hB hinv
    have hbounce : ∀ t, (droplet.mk_active c 5).steps (n - 1) (a + (k + 1) + t) =
        (droplet.step (droplet.mk c (fall_position k) (5 * (k : Int)) 5 falling) (n - 1)).steps
          (n - 1) t := by
      intro t
      rw [steps_add, hpost (k + 1)]
      show (((droplet.mk c 0 0 5 falling).steps (n - 1) k).step (n - 1)).steps (n - 1) t = _
      rw [hfall k le_rfl]
    refine ⟨a, a + (k + 1), a + (k + 1) + (j + 1), ha, by omega, by omega, hpre, ?_, ?_, ?_⟩
    · intro i h1 h2
      have e : i = a + (i - a) := by omega
      rw [e, hpost, hfall (i - a) (by omega)]
    · intro i h1 h2
      have e : i = a + (k + 1) + (i - (a + (k + 1))) := by omega
      rw [e, hbounce]
      exact (hj _ (by omega)).1
    · intro i h1
      have e : i = a + (k + 1) + ((j + 1) + (i - (a + (k + 1) + (j + 1)))) := by omega
      rw [e, hbounce, steps_add, steps_of_inactive _ _ hend]
      exact hend

theorem droplet_completes_lifecycle_witness :
    ((1 : Nat) ≤ 3 ∧ (3 : Nat) ≤ 255 ∧ (⟨128, 128, 128⟩ : rgb) ∈ droplet_colors) ∧
    ∃ a b e : Nat, 0 < a ∧ a < b ∧ b < e ∧
      (∀ i, i < a → ((droplet.mk_active ⟨128, 128, 128⟩ 5).steps (3 - 1) i).state = swelling) ∧
      (∀ i, a ≤ i → i < b →
        ((droplet.mk_active ⟨128, 128, 128⟩ 5).steps (3 - 1) i).state = falling) ∧
      (∀ i, b ≤ i → i < e →
        ((droplet.mk_active ⟨128, 128, 128⟩ 5).steps (3 - 1) i).state = bouncing) ∧
      (∀ i, e ≤ i → ((droplet.mk_active ⟨128, 128, 128⟩ 5).steps (3 - 1) i).state = inactive) :=
  ⟨by decide, droplet_completes_lifecycle 3 (by decide) (by decide) ⟨128, 128, 128⟩ (by decide)⟩

theorem life_inv_step (maxpos : Nat) (h1 : 1 ≤ maxpos) (h2 : maxpos ≤ 254) (d : droplet)
    (hd : life_inv (maxpos * 256) d) : life_inv (maxpos * 256) (d.step maxpos) := by
  obtain ⟨hpool, hbo, hin⟩ := hd
  refine ⟨pool_inv_step maxpos h1 h2 d hpool, ?_, ?_⟩
  · intro hs'
    cases hst : d.state with
    | inactive =>
      rw [step_of_inactive d maxpos hst, hst] at hs'
      cases hs'
    | swelling =>
      rcases step_state_cases d maxpos with h | h | h | h
      · rw [h, hst] at hs'; cases hs'
      · rw [h.2] at hs'; cases hs'
      · rw [hst] at h; cases h.1
      · rw [hst] at h; cases h.1
    | falling =>
      obtain ⟨hg, -, -, hfa, -⟩ := hpool
      obtain ⟨k, hsp, hk, hpos⟩ := hfa hst
      have hdeq : d = droplet.mk d.color d.position (5 * (k : Int)) 5 falling := by
        cases d
        simp only at hst hsp hg
        subst hst hsp hg
        rfl
      by_cases hgt : maxpos * 256 < d.position + 5 * k
      · rw [hdeq]
        exact (bounce_inv_of_impact maxpos k d.position d.color h1 h2 hk hpos hgt).2.1
      · exfalso
        have h161 := fall_count_le k d.position _ hk hpos (by omega)
        have hM : to_u16 ((maxpos : Int) * 256) = maxpos * 256 := by
          simp only [to_u16]; omega
        have hp : to_u16 ((d.position : Int) + d.speed) = d.position + 5 * k := by
          rw [hsp]; simp only [to_u16]; omega
        rw [step_falling d maxpos hst, hp, hM, if_neg (by omega)] at hs'
        simp only [hst] at hs'
        cases hs'
    | bouncing =>
      rcases bounce_inv_step maxpos h2 d hst (hbo hst) with ⟨h, -⟩ | ⟨-, h, -, -⟩
      · rw [h] at hs'; cases hs'
      · exact h
  · intro hs'
    cases hst : d.state with
    | inactive =>
      rw [step_of_inactive d maxpos hst]
      exact hin hst
    | swelling =>
      rcases step_state_cases d maxpos with h | h | h | h
      · rw [h, hst] at hs'; cases hs'
      · rw [h.2] at hs'; cases hs'
      · rw [hst] at h; cases h.1
      · rw [hst] at h; cases h.1
    | falling =>
      rcases step_state_cases d maxpos with h | h | h | h
      · rw [h, hst] at hs'; cases hs'
      · rw [hst] at h; cases h.1
      · rw [h.2] at hs'; cases hs'
      · rw [hst] at h; cases h.1
    | bouncing =>
      rcases bounce_inv_step maxpos h2 d hst (hbo hst) with ⟨-, h, h'⟩ | ⟨h, -, -, -⟩
      · exact ⟨le_of_lt h, h'⟩
      · rw [h] at hs'; cases hs'

theorem life_inv_steps (maxpos : Nat) (h1 : 1 ≤ maxpos) (h2 : maxpos ≤ 254) (c : rgb)
    (hc : c.wf) (k : Nat) :
    life_inv (maxpos * 256) ((droplet.mk_active c 5).steps maxpos k) := by
  induction k with
  | zero =>
    refine ⟨pool_inv_mk_active _ c hc, ?_, ?_⟩
    · intro h; cases h
    · intro h; cases h
  | succ k ih => exact life_inv_step maxpos h1 h2 _ ih

/-- C18: on a strip of `n` cells, `1 ≤ n ≤ 255`, for a droplet spawned by the pool
with a palette colour and advanced by any number of `step(n-1)` calls: if the
speed is negative the state is bouncing; while swelling the speed is 0; while
falling the speed is between 0 and 805, so adding the gravity does not overflow
16 bits; and the speed always lies in the `int16_t` range. -/
theorem speed_negative_only_bouncing (n : Nat) (h1 : 1 ≤ n) (h255 : n ≤ 255) (c : rgb)
    (hc : c ∈ droplet_colors) (k : Nat) (d : droplet)
    (hd : d = (droplet.mk_active c 5).steps (n - 1) k) :
    (d.speed < 0 → d.state = bouncing) ∧
    (d.state = swelling → d.speed = 0) ∧
    (d.state = falling → 0 ≤ d.speed ∧ d.speed ≤ 805 ∧
      d.speed + (d.gravity : Int) ≤ 32767) ∧
    (-32768 ≤ d.speed ∧ d.speed ≤ 32767) := by
  have hwf := droplet_colors_wf c hc
  rcases Nat.eq_or_lt_of_le h1 with hn1 | hn2
  · -- a strip of one cell
    have hn0 : n - 1 = 0 := by omega
    rw [hn0] at hd
    obtain ⟨s1, s2, s3⟩ := one_led_steps c
    by_cases hk : k < (if 10 < c.blue then c.blue - 10 else 1)
    · rw [swelling_initial c 5 0 hwf.2.2 k hk] at hd
      subst hd
      simp
    · have e : k = (if 10 < c.blue then c.blue - 10 else 1) +
          (k - (if 10 < c.blue then c.blue - 10 else 1)) := by omega
      rw [e, steps_after_swelling c 5 0 hwf.2.2] at hd
      generalize k - (if 10 < c.blue then c.blue - 10 else 1) = t at hd
      match t with
      | 0 =>
        have : d = droplet.mk c 0 0 5 falling := hd
        subst this
        simp
      | 1 => rw [s1] at hd; subst hd; simp
      | 2 => rw [s2] at hd; subst hd; simp
      | t + 3 =>
        rw [Nat.add_comm t 3, one_led_steps_late] at hd
        subst hd
        simp
  · have hinv := life_inv_steps (n - 1) (by omega) (by omega) c hwf k
    rw [← hd] at hinv
    obtain ⟨⟨hg, -, hsw, hfa, -⟩, hbo, hin⟩ := hinv
    have hfall : d.state = falling → 0 ≤ d.speed ∧ d.speed ≤ 805 := by
      intro hs
      obtain ⟨j, hsp, hj, hpos⟩ := hfa hs
      have := fall_count_le j d.position _ hj hpos (by omega)
      omega
    refine ⟨?_, fun hs => (hsw hs).1, ?_, ?_⟩
    · intro hneg
      cases hst : d.state with
      | inactive => have := hin hst; omega
      | swelling => have := (hsw hst).1; omega
      | falling => have := hfall hst; omega
      | bouncing => rfl
    · intro hs
      have := hfall hs
      rw [hg]
      omega
    · cases hst : d.state with
      | inactive => have := hin hst; omega
      | swelling => have := (hsw hst).1; omega
      | falling => have := hfall hst; omega
      | bouncing => have := bounce_inv_speed _ d (hbo hst); omega
theorem speed_negative_only_bouncing_witness :
    ((1 : Nat) ≤ 2 ∧ (2 : Nat) ≤ 255 ∧ (⟨255, 255, 0⟩ : rgb) ∈ droplet_colors) ∧
    ((((droplet.mk_active ⟨255, 255, 0⟩ 5).steps (2 - 1) 12).speed < 0 →
        ((droplet.mk_active ⟨255, 255, 0⟩ 5).steps (2 - 1) 12).state = bouncing) ∧
      ((droplet.mk_active ⟨255, 255, 0⟩ 5).steps (2 - 1) 12).speed = -13) :=
  ⟨by decide,
    (speed_negative_only_bouncing 2 (by decide) (by decide) ⟨255, 255, 0⟩ (by decide) 12 _
      rfl).1, by decide⟩

/-! ### Runs of the pool: scheduler invariant and palette order (C20, C12) -/

theorem step_all_length (numPixels : Nat) (reverse : Bool) (count : Nat) :
    ∀ (idx : Nat) (droplets ds : List droplet) (leds leds' : List rgb),
      step_all numPixels reverse count idx droplets leds = some (ds, leds') →
      ds.length = droplets.length := by
  induction count with
  | zero =>
    intro idx droplets ds leds leds' h
    simp only [step_all, Option.some.injEq, Prod.mk.injEq] at h
    rw [← h.1]
  | succ count ih =>
    intro idx droplets ds leds leds' h
    rw [step_all_succ] at h
    cases hd : droplets[idx]? with
    | none => simp [hd] at h
    | some d =>
      simp only [hd, Option.some_bind] at h
      cases hsd : d.step_draw leds (to_u8 (numPixels : Int)) reverse with
      | none => simp [hsd] at h
      | some p =>
        simp only [hsd, Option.some_bind] at h
        rw [ih _ _ _ _ _ h, List.length_set]

theorem spawn_sched_ok (w w1 : WaterTorture) (rand : Nat) (h : sched_ok w)
    (hs : w.spawn rand = some w1) : sched_ok w1 ∧ w1.leds = w.leds := by
  obtain ⟨hlen, hcur, hp, hcol⟩ := h
  by_cases h0 : 0 < w.droplet_pause
  · rw [spawn_countdown w rand h0 (by omega)] at hs
    cases hs
    exact ⟨⟨hlen, hcur, by show w.droplet_pause - 1 ≤ 179; omega, hcol⟩, rfl⟩
  · have h0' : w.droplet_pause = 0 := by omega
    have hlt : w.current_droplet < w.droplets.length := by rw [hlen]; exact hcur
    have hd := List.getElem?_eq_getElem hlt
    cases ha : (w.droplets[w.current_droplet]).is_active with
    | true =>
      rw [spawn_active w rand _ h0' hd ha] at hs
      cases hs
      exact ⟨⟨hlen, hcur, hp, hcol⟩, rfl⟩
    | false =>
      obtain ⟨c, -, hsp⟩ := spawn_inactive w rand _ h0' hcur hcol hd ha
      rw [hsp] at hs
      cases hs
      refine ⟨⟨?_, ?_, ?_, ?_⟩, rfl⟩
      · show (w.droplets.set w.current_droplet _).length = droplet_count
        rw [List.length_set]; exact hlen
      · show (w.current_droplet + 1) % 4 < droplet_count
        simp only [droplet_count]; omega
      · show 100 + rand % 80 ≤ 179
        omega
      · show (w.current_color_index + 1) % 5 < num_droplet_colors
        simp only [num_droplet_colors, droplet_colors, List.length_cons, List.length_nil]
        omega

theorem animate_sched_ok (w w' : WaterTorture) (rand : Nat) (reverse : Bool) (h : sched_ok w)
    (ha : w.animate rand reverse = some w') : sched_ok w' := by
  obtain ⟨w1, ds, leds', hs, hst, hw⟩ := animate_some w w' rand reverse ha
  obtain ⟨⟨hlen, hcur, hp, hcol⟩, -⟩ := spawn_sched_ok w w1 rand h hs
  rw [hw]
  exact ⟨by rw [← hlen]; exact step_all_length _ _ _ _ _ _ _ _ hst, hcur, hp, hcol⟩

theorem run_sched_ok (inputs : List (Nat × Bool)) :
    ∀ (w w' : WaterTorture), sched_ok w → w.run inputs = some w' → sched_ok w' := by
  induction inputs with
  | nil =>
    intro w w' h hr
    simp only [WaterTorture.run, Option.some.injEq] at hr
    rw [← hr]; exact h
  | cons input rest ih =>
    intro w w' h hr
    simp only [WaterTorture.run] at hr
    cases ha : w.animate input.1 input.2 with
    | none => simp [ha] at hr
    | some w2 =>
      simp only [ha, Option.some_bind] at hr
      exact ih w2 w' (animate_sched_ok w w2 _ _ h ha) hr

theorem init_sched_ok (leds : List rgb) : sched_ok (WaterTorture.init leds) := by
  refine ⟨?_, ?_, ?_, ?_⟩ <;> simp [WaterTorture.init, droplet_count, num_droplet_colors,
    droplet_colors]

theorem slot_step (n : Nat) (h2 : 2 ≤ n) (h255 : n ≤ 255) (d : droplet)
    (h : d.state = inactive ∨ pool_inv ((n - 1) * 256) d) :
    (d.step (n - 1)).state = inactive ∨ pool_inv ((n - 1) * 256) (d.step (n - 1)) := by
  rcases h with h | h
  · left; rw [step_of_inactive d _ h]; exact h
  · right; exact pool_inv_step (n - 1) (by omega) (by omega) d h

theorem slot_draw (n : Nat) (h2 : 2 ≤ n) (h255 : n ≤ 255) (d : droplet) (leds : List rgb)
    (reverse : Bool) (hlen : leds.length = n)
    (h : d.state = inactive ∨ pool_inv ((n - 1) * 256) d) :
    ∃ leds', d.draw leds (n - 1) reverse = some leds' ∧ leds'.length = n := by
  have hpos : d.state = falling ∨ d.state = bouncing → d.position ≤ (n - 1) * 256 := by
    intro hs
    rcases h with h | h
    · rw [h] at hs
      rcases hs with hs | hs <;> cases hs
    · obtain ⟨-, -, -, hfa, hbo⟩ := h
      rcases hs with hs | hs
      · obtain ⟨_, -, -, hp⟩ := hfa hs
        exact hp
      · exact hbo hs
  have hidx := (draw_ops_index_lt d (n - 1) reverse (by omega) hpos).2.2.2
  rw [draw_eq_apply_ops]
  obtain ⟨l, hl, hlen'⟩ := apply_ops_some (d.draw_ops (n - 1) reverse) leds
    (fun op hop => by have := hidx op hop; omega)
  exact ⟨l, hl, by rw [hlen', hlen]⟩

theorem step_all_total (n : Nat) (h2 : 2 ≤ n) (h255 : n ≤ 255) (reverse : Bool) (count : Nat) :
    ∀ (idx : Nat) (droplets : List droplet) (leds : List rgb),
      leds.length = n → idx + count ≤ droplets.length →
      (∀ d ∈ droplets, d.state = inactive ∨ pool_inv ((n - 1) * 256) d) →
      ∃ ds leds', step_all n reverse count idx droplets leds = some (ds, leds') ∧
        leds'.length = n ∧
        ∀ d ∈ ds, d.state = inactive ∨ pool_inv ((n - 1) * 256) d := by
  have hmp : to_u8 ((to_u8 (n : Int) : Int) - 1) = n - 1 := by
    simp only [to_u8]; omega
  induction count with
  | zero =>
    intro idx droplets leds hlen _ hall
    exact ⟨droplets, leds, rfl, hlen, hall⟩
  | succ count ih =>
    intro idx droplets leds hlen hidx hall
    have hi : idx < droplets.length := by omega
    have hd := hall _ (List.getElem_mem hi)
    obtain ⟨leds1, hdraw, hlen1⟩ := slot_draw n h2 h255 _ leds reverse hlen
      (slot_step n h2 h255 _ hd)
    have hsd : (droplets[idx]).step_draw leds (to_u8 (n : Int)) reverse =
        some ((droplets[idx]).step (n - 1), leds1) := by
      unfold droplet.step_draw
      simp only [hmp, hdraw, Option.map_some']
    rw [step_all_succ, List.getElem?_eq_getElem hi]
    simp only [Option.some_bind, hsd]
    apply ih (idx + 1) _ leds1 hlen1 (by rw [List.length_set]; omega)
    intro d hd'
    rcases List.mem_or_eq_of_mem_set hd' with h | h
    · exact hall d h
    · rw [h]; exact slot_step n h2 h255 _ hd

theorem spawn_pool_ok (n : Nat) (w : WaterTorture) (rand : Nat) (h : pool_ok n w) :
    ∃ w1, w.spawn rand = some w1 ∧ pool_ok n w1 := by
  obtain ⟨hleds, hsched, hall⟩ := h
  obtain ⟨hlen, hcur, hp, hcol⟩ := hsched
  by_cases h0 : 0 < w.droplet_pause
  · have hs := spawn_countdown w rand h0 (by omega)
    obtain ⟨hs1, hs2⟩ := spawn_sched_ok w _ rand ⟨hlen, hcur, hp, hcol⟩ hs
    exact ⟨_, hs, hleds, hs1, hall⟩
  · have h0' : w.droplet_pause = 0 := by omega
    have hlt : w.current_droplet < w.droplets.length := by rw [hlen]; exact hcur
    have hd := List.getElem?_eq_getElem hlt
    cases ha : (w.droplets[w.current_droplet]).is_active with
    | true =>
      exact ⟨w, spawn_active w rand _ h0' hd ha, hleds, ⟨hlen, hcur, hp, hcol⟩, hall⟩
    | false =>
      obtain ⟨c, hc, hsp⟩ := spawn_inactive w rand _ h0' hcur hcol hd ha
      obtain ⟨hs1, -⟩ := spawn_sched_ok w _ rand ⟨hlen, hcur, hp, hcol⟩ hsp
      refine ⟨_, hsp, hleds, hs1, ?_⟩
      intro d hd'
      rcases List.mem_or_eq_of_mem_set hd' with h | h
      · exact hall d h
      · right
        rw [h]
        exact pool_inv_mk_active _ c (droplet_colors_wf c (List.getElem?_mem hc))

theorem animate_total (n : Nat) (h2 : 2 ≤ n) (h255 : n ≤ 255) (w : WaterTorture) (rand : Nat)
    (reverse : Bool) (h : pool_ok n w) :
    ∃ w', w.animate rand reverse = some w' ∧ pool_ok n w' := by
  obtain ⟨w1, hs, hleds, hsched, hall⟩ := spawn_pool_ok n w rand h
  obtain ⟨ds, leds', hst, hlen', hall'⟩ := step_all_total n h2 h255 reverse droplet_count 0
    w1.droplets (List.replicate n ⟨0, 0, 0⟩) (by simp) (by rw [hsched.1]; omega) hall
  have ha : w.animate rand reverse = some { w1 with droplets := ds, leds := leds' } := by
    unfold WaterTorture.animate
    rw [hs]
    simp only [Option.bind_eq_bind, Option.some_bind, hleds, hst]
  refine ⟨_, ha, hlen', animate_sched_ok w _ rand reverse h.2.1 ha, hall'⟩

theorem init_pool_ok (leds : List rgb) : pool_ok leds.length (WaterTorture.init leds) := by
  refine ⟨rfl, init_sched_ok leds, ?_⟩
  intro d hd
  left
  rw [List.eq_of_mem_replicate hd]
  rfl

theorem run_total (n : Nat) (h2 : 2 ≤ n) (h255 : n ≤ 255) (inputs : List (Nat × Bool)) :
    ∀ w : WaterTorture, pool_ok n w → ∃ w', w.run inputs = some w' ∧ pool_ok n w' := by
  induction inputs with
  | nil => intro w h; exact ⟨w, rfl, h⟩
  | cons input rest ih =>
    intro w h
    obtain ⟨w2, ha, h2'⟩ := animate_total n h2 h255 w input.1 input.2 h
    obtain ⟨w', hr, h'⟩ := ih w2 h2'
    refine ⟨w', ?_, h'⟩
    simp only [WaterTorture.run, ha, Option.some_bind, hr]

/-- C20: every state that `animate` reaches from the constructed pool, for any
values of `rand()` and any direction flags, has four droplets,
`current_droplet < 4` (so `droplets[current_droplet]` is a valid slot),
`droplet_pause ≤ 179` and a palette index below 5; and on a strip of 2 to 255
cells every sequence of `animate` calls does reach a state. -/
theorem scheduler_invariant (leds : List rgb) (inputs : List (Nat × Bool)) :
    (∀ w : WaterTorture, (WaterTorture.init leds).run inputs = some w →
      w.droplets.length = droplet_count ∧ w.current_droplet < 4 ∧
      (∃ d, w.droplets[w.current_droplet]? = some d) ∧
      w.droplet_pause ≤ 179 ∧ w.current_color_index < 5) ∧
    (2 ≤ leds.length → leds.length ≤ 255 →
      ∃ w : WaterTorture, (WaterTorture.init leds).run inputs = some w) := by
  constructor
  · intro w hr
    obtain ⟨hlen, hcur, hp, hcol⟩ := run_sched_ok inputs _ w (init_sched_ok leds) hr
    refine ⟨hlen, hcur, ⟨_, List.getElem?_eq_getElem (by rw [hlen]; exact hcur)⟩, hp, hcol⟩
  · intro h2 h255
    obtain ⟨w, hr, -⟩ := run_total leds.length h2 h255 inputs _ (init_pool_ok leds)
    exact ⟨w, hr⟩

theorem scheduler_invariant_witness :
    ((WaterTorture.init [⟨1, 2, 3⟩, ⟨4, 5, 6⟩]).run [(7, false), (8, true), (9, false)]).map
        (fun w => (w.current_droplet, w.droplet_pause, w.current_color_index)) =
      some (1, 107, 1) ∧
    ∃ w : WaterTorture,
      (WaterTorture.init [⟨1, 2, 3⟩, ⟨4, 5, 6⟩]).run [(7, false), (8, true), (9, false)] =
        some w :=
  ⟨by decide,
    (scheduler_invariant [⟨1, 2, 3⟩, ⟨4, 5, 6⟩] [(7, false), (8, true), (9, false)]).2
      (by decide) (by decide)⟩

theorem spawned_color_eq (w : WaterTorture) (rand : Nat) (d : droplet) (h : sched_ok w)
    (hd : w.droplets[w.current_droplet]? = some d) :
    w.spawned_color rand =
      if w.droplet_pause = 0 ∧ d.is_active = false then
        droplet_colors[w.current_color_index]?
      else none := by
  obtain ⟨hlen, hcur, hp, hcol⟩ := h
  unfold WaterTorture.spawned_color
  by_cases h0 : 0 < w.droplet_pause
  · rw [spawn_countdown w rand h0 (by omega), if_neg (by omega)]
    simp
  · have h0' : w.droplet_pause = 0 := by omega
    cases ha : d.is_active with
    | true =>
      rw [spawn_active w rand d h0' hd ha]
      simp
    | false =>
      obtain ⟨c, hc, hsp⟩ := spawn_inactive w rand d h0' hcur hcol hd ha
      have hlt : w.current_droplet < w.droplets.length := by rw [hlen]; exact hcur
      have hne : (w.current_color_index + 1) % 5 ≠ w.current_color_index := by
        simp only [num_droplet_colors, droplet_colors, List.length_cons, List.length_nil] at hcol
        omega
      rw [hsp, if_pos ⟨h0', rfl⟩, hc]
      simp only [Option.some_bind, ne_eq, hne, not_false_eq_true, if_true]
      rw [List.getElem?_set_self hlt]
      rfl

theorem spawn_color_index (w w1 : WaterTorture) (rand : Nat) (h : sched_ok w)
    (hs : w.spawn rand = some w1) :
    (w.spawned_color rand = none ∧ w1.current_color_index = w.current_color_index) ∨
    (∃ c, w.spawned_color rand = some c ∧ droplet_colors[w.current_color_index]? = some c ∧
      w1.current_color_index = (w.current_color_index + 1) % 5) := by
  obtain ⟨hlen, hcur, hp, hcol⟩ := h
  have hlt : w.current_droplet < w.droplets.length := by rw [hlen]; exact hcur
  have hd := List.getElem?_eq_getElem hlt
  have hsc := spawned_color_eq w rand _ ⟨hlen, hcur, hp, hcol⟩ hd
  by_cases h0 : 0 < w.droplet_pause
  · left
    rw [spawn_countdown w rand h0 (by omega)] at hs
    cases hs
    rw [hsc, if_neg (by omega)]
    exact ⟨rfl, rfl⟩
  · have h0' : w.droplet_pause = 0 := by omega
    cases ha : (w.droplets[w.current_droplet]).is_active with
    | true =>
      left
      rw [spawn_active w rand _ h0' hd ha] at hs
      cases hs
      rw [hsc, if_neg (by simp [ha])]
      exact ⟨rfl, rfl⟩
    | false =>
      right
      obtain ⟨c, hc, hsp⟩ := spawn_inactive w rand _ h0' hcur hcol hd ha
      rw [hsp] at hs
      cases hs
      exact ⟨c, by rw [hsc, if_pos ⟨h0', ha⟩, hc], hc, rfl⟩

theorem spawn_log_colors (inputs : List (Nat × Bool)) :
    ∀ (w : WaterTorture) (log : List rgb), sched_ok w → w.spawn_log inputs = some log →
      ∀ (k : Nat) (c : rgb), log[k]? = some c →
        droplet_colors[(w.current_color_index + k) % 5]? = some c := by
  induction inputs with
  | nil =>
    intro w log _ hl k c hk
    simp only [WaterTorture.spawn_log, Option.some.injEq] at hl
    rw [← hl] at hk
    simp at hk
  | cons input rest ih =>
    intro w log h hl k c hk
    simp only [WaterTorture.spawn_log] at hl
    cases ha : w.animate input.1 input.2 with
    | none => simp [ha] at hl
    | some w2 =>
      simp only [ha, Option.some_bind] at hl
      cases hl2 : w2.spawn_log rest with
      | none => simp [hl2] at hl
      | some log2 =>
        simp only [hl2, Option.map_some', Option.some.injEq] at hl
        obtain ⟨w1, ds, leds', hs, -, hw⟩ := animate_some w w2 input.1 input.2 ha
        have hidx : w2.current_color_index = w1.current_color_index := by rw [hw]
        have h2 := animate_sched_ok w w2 _ _ h ha
        have hcol : w.current_color_index < 5 := h.2.2.2
        rcases spawn_color_index w w1 input.1 h hs with ⟨hn, hi⟩ | ⟨c0, hc0, hcol0, hi⟩
        · rw [hn] at hl
          simp only [Option.toList, List.nil_append] at hl
          rw [← hl] at hk
          have := ih w2 log2 h2 hl2 k c hk
          rw [hidx, hi] at this
          exact this
        · rw [hc0] at hl
          simp only [Option.toList, List.singleton_append] at hl
          rw [← hl] at hk
          cases k with
          | zero =>
            simp only [List.getElem?_cons_zero, Option.some.injEq] at hk
            rw [← hk, Nat.add_zero, Nat.mod_eq_of_lt hcol]
            exact hcol0
          | succ k =>
            simp only [List.getElem?_cons_succ] at hk
            have := ih w2 log2 h2 hl2 k c hk
            rw [hidx, hi] at this
            have e : ((w.current_color_index + 1) % 5 + k) % 5 =
                (w.current_color_index + (k + 1)) % 5 := by omega
            rw [e] at this
            exact this

theorem spawn_log_total (n : Nat) (h2 : 2 ≤ n) (h255 : n ≤ 255) (inputs : List (Nat × Bool)) :
    ∀ w : WaterTorture, pool_ok n w → ∃ log, w.spawn_log inputs = some log := by
  induction inputs with
  | nil => intro w _; exact ⟨[], rfl⟩
  | cons input rest ih =>
    intro w h
    obtain ⟨w2, ha, h2'⟩ := animate_total n h2 h255 w input.1 input.2 h
    obtain ⟨log, hl⟩ := ih w2 h2'
    refine ⟨(w.spawned_color input.1).toList ++ log, ?_⟩
    simp only [WaterTorture.spawn_log, ha, Option.some_bind, hl, Option.map_some']

/-- C12: counting from 0, the `k`-th droplet that the pool creates since its
construction has colour `droplet_colors[k mod 5]`, the palette being (255,255,0),
(255,0,255), (128,128,128), (255,255,255), (0,0,255) in this order, whatever
`rand()` returns and whichever slot is used; a droplet is created exactly in a
frame with `droplet_pause = 0` and an inactive droplet in the current slot, and on
a strip of 2 to 255 cells the run is defined for every sequence of inputs. -/
theorem palette_cycles (leds : List rgb) (inputs : List (Nat × Bool)) :
    droplet_colors =
      [⟨255, 255, 0⟩, ⟨255, 0, 255⟩, ⟨128, 128, 128⟩, ⟨255, 255, 255⟩, ⟨0, 0, 255⟩] ∧
    (∀ log : List rgb, (WaterTorture.init leds).spawn_log inputs = some log →
      ∀ (k : Nat) (c : rgb), log[k]? = some c → droplet_colors[k % 5]? = some c) ∧
    (2 ≤ leds.length → leds.length ≤ 255 →
      ∃ log : List rgb, (WaterTorture.init leds).spawn_log inputs = some log) ∧
    (∀ (w : WaterTorture) (rand : Nat) (d : droplet), sched_ok w →
      w.droplets[w.current_droplet]? = some d →
      w.spawned_color rand =
        if w.droplet_pause = 0 ∧ d.is_active = false then
          droplet_colors[w.current_color_index]?
        else none) := by
  refine ⟨rfl, ?_, ?_, spawned_color_eq⟩
  · intro log hl k c hk
    have := spawn_log_colors inputs _ log (init_sched_ok leds) hl k c hk
    simpa [WaterTorture.init] using this
  · intro h2 h255
    exact spawn_log_total leds.length h2 h255 inputs _ (init_pool_ok leds)

theorem palette_cycles_witness :
    (WaterTorture.init [⟨1, 2, 3⟩, ⟨4, 5, 6⟩]).spawn_log [(7, false), (8, true), (9, false)] =
      some [⟨255, 255, 0⟩] ∧
    droplet_colors[0 % 5]? = some ⟨255, 255, 0⟩ :=
  ⟨by decide,
    (palette_cycles [⟨1, 2, 3⟩, ⟨4, 5, 6⟩] [(7, false), (8, true), (9, false)]).2.1
      [⟨255, 255, 0⟩] (by decide) 0 ⟨255, 255, 0⟩ rfl⟩

end water_torture
